import Mathlib

/-!
Shallow embedding of the checkers rules engine from
src/managers/checkersManager.ts (CheckersManager class).

Modelling conventions:
* The source stores positions as world coordinates ranging over
  -4.5, -3.5, ..., 4.5 (BOARD_MIN = -4.5, BOARD_MAX = 4.5, spacing 1.0).
  We shift every coordinate by +4.5, so playable coordinates are the
  integers 0..9; BOARD_MIN maps to 0 and BOARD_MAX maps to 9.  All
  position arithmetic in the source adds integers to coordinates, so the
  shift preserves every comparison.  The approximate comparisons
  (Math.abs(a-b) < 0.1) become exact integer equality.
* The floating distance tests translate on the integer grid as follows,
  with sq = dx*dx + dz*dz:
  distance >= 2.5  iff  sq >= 6.25  iff  sq >= 7 (integers);
  1.2 < distance < 1.6  iff  1.44 < sq < 2.56  iff  sq = 2.
* The human-readable message strings are modelled by the inductive type
  Msg, one constructor per distinct string in the source.
* Array accesses that would throw in TypeScript (reading a field of
  undefined after an out-of-range index) are modelled by Option: the
  functions return none exactly where the source would crash.
* Scene/mesh/behavior bookkeeping (three.js objects, selection
  indicator graphics) has no effect on the game state and is omitted.
-/

namespace Checkers

inductive Color where
  | black
  | white
deriving DecidableEq, Repr

def Color.opposite : Color → Color
  | .black => .white
  | .white => .black

structure GridPos where
  x : Int
  z : Int
deriving DecidableEq, Repr

structure Piece where
  pos : GridPos
  color : Color
  isKing : Bool
  hasMoved : Bool
deriving DecidableEq, Repr

/-- One constructor per distinct message string produced by the source. -/
inductive Msg where
  | noPieceSelected          -- "No piece selected"
  | wrongTurn                -- "It is <currentPlayer> turn" (apostrophes elided)
  | mustContinueCapturing    -- "You must continue capturing with the same piece."
  | targetOccupied           -- "Target position is occupied"
  | invalidMove              -- "Invalid move"
  | invalidMoveDistance      -- "Invalid move distance"
  | mustCaptureWhenAvailable -- "Must capture when available"
  | mustMoveDiagonally       -- "Must move diagonally"
  | onlyForward              -- "Regular pieces can only move forward"
  | jumpMustBeDiagonal       -- "Jump must be diagonal"
  | invalidJumpDistance      -- "Invalid jump distance"
  | cannotJumpTwoPieces      -- "Cannot jump over two pieces in one move"
  | noPieceToJump            -- "No piece to jump over"
  | cannotJumpOwnPiece       -- "Cannot jump over own piece"
deriving DecidableEq, Repr

structure MoveResult where
  success : Bool
  captured : Option (List GridPos) := none
  becameKing : Option Bool := none
  message : Option Msg := none
deriving DecidableEq, Repr

structure GameState where
  pieces : List Piece
  selectedPieceIndex : Int
  currentPlayer : Color
  startingPlayer : Color
  mustCaptureFrom : List Nat
  botColor : Color
deriving DecidableEq, Repr

/-- isOnBoard: both coordinates within BOARD_MIN..BOARD_MAX (0..9 shifted). -/
def isOnBoard (p : GridPos) : Bool :=
  decide (0 ≤ p.x) && decide (p.x ≤ 9) && decide (0 ≤ p.z) && decide (p.z ≤ 9)

/-- getPieceAt: first piece in the registry whose position matches. -/
def getPieceAt (pieces : List Piece) (p : GridPos) : Option Piece :=
  pieces.find? (fun q => q.pos == p)

/-- Position reached after i unit steps in direction d. -/
def stepPos (p d : GridPos) (i : Nat) : GridPos :=
  ⟨p.x + d.x * (i : Int), p.z + d.z * (i : Int)⟩

/-- The four diagonal jump directions, in source order. -/
def jumpDirections : List GridPos :=
  [⟨1, 1⟩, ⟨-1, 1⟩, ⟨1, -1⟩, ⟨-1, -1⟩]

/-- getMovementDirections: all four diagonals for a King, the two
forward diagonals for a Man (black advances +z, white advances -z). -/
def getMovementDirections (piece : Piece) : List GridPos :=
  if piece.isKing then
    [⟨1, 1⟩, ⟨-1, 1⟩, ⟨1, -1⟩, ⟨-1, -1⟩]
  else
    let forward : Int := if piece.color == Color.black then 1 else -1
    [⟨1, forward⟩, ⟨-1, forward⟩]

/-- isForwardMove: Kings move any direction; a Man only with its forward z sign. -/
def isForwardMove (piece : Piece) (d : GridPos) : Bool :=
  if piece.isKing then true
  else
    let forward : Int := if piece.color == Color.black then 1 else -1
    d.z == forward

/-- Membership test used for the capturedSoFar lists (exact on the integer grid). -/
def posInList (p : GridPos) (l : List GridPos) : Bool :=
  l.any (fun q => q == p)

/-- The King ray scan of getJumpMoves: the first distance 1..9 at which the
scan loop breaks (square off board, or occupied). -/
def rayFirstStop (pieces : List Piece) (fromPos d : GridPos) : Option Nat :=
  (List.range' 1 9).find? (fun i =>
    !(isOnBoard (stepPos fromPos d i)) || (getPieceAt pieces (stepPos fromPos d i)).isSome)

/-- The landing distances tried after jumping a piece at distance k: successive
distances k+1..9 while the square is on board and empty (the source loop
breaks at the first failure). -/
def kingLandings (pieces : List Piece) (fromPos d : GridPos) (k : Nat) : List Nat :=
  (List.range' (k + 1) (9 - k)).takeWhile (fun j =>
    isOnBoard (stepPos fromPos d j) && (getPieceAt pieces (stepPos fromPos d j)).isNone)

/-- A capture move as produced by the recursive jump search: the final landing
square and the ordered list of captured squares. -/
structure TargetMove where
  targetPos : GridPos
  captured : List GridPos
deriving DecidableEq, Repr

/-- The recursive multi-jump search of getJumpMoves / getJumpMovesWithPositions
(the source duplicates the identical recursion in both; we embed it once,
keeping the landing square).  The extra fuel argument only bounds the
recursion depth; jumpMovesAux_fuel below shows any fuel larger than the
number of not-yet-captured pieces gives the same result, so the wrapper
getJumpMovesWithPositions is fuel-independent. -/
def jumpMovesAux (pieces : List Piece) (piece : Piece) :
    Nat → GridPos → List GridPos → List TargetMove
  | 0, _, _ => []
  | fuel + 1, fromPos, capturedSoFar =>
    jumpDirections.flatMap (fun d =>
      if piece.isKing then
        match rayFirstStop pieces fromPos d with
        | none => []
        | some k =>
          if isOnBoard (stepPos fromPos d k) then
            match getPieceAt pieces (stepPos fromPos d k) with
            | none => []
            | some q =>
              if q.color != piece.color && !(posInList (stepPos fromPos d k) capturedSoFar) then
                (kingLandings pieces fromPos d k).flatMap (fun j =>
                  let landing := stepPos fromPos d j
                  let newCaptured := capturedSoFar ++ [stepPos fromPos d k]
                  let continued := jumpMovesAux pieces piece fuel landing newCaptured
                  if continued.isEmpty then [⟨landing, newCaptured⟩] else continued)
              else []
          else []
      else
        let jumpOverPos := stepPos fromPos d 1
        let landingPos := stepPos fromPos d 2
        if isOnBoard jumpOverPos && isOnBoard landingPos then
          match getPieceAt pieces jumpOverPos with
          | none => []
          | some q =>
            if q.color != piece.color && (getPieceAt pieces landingPos).isNone &&
                !(posInList jumpOverPos capturedSoFar) then
              let newCaptured := capturedSoFar ++ [jumpOverPos]
              let continued := jumpMovesAux pieces piece fuel landingPos newCaptured
              if continued.isEmpty then [⟨landingPos, newCaptured⟩] else continued
            else []
        else [])

/-- getJumpMovesWithPositions from the source (recursion instantiated with
sufficient fuel; see jumpMovesAux_fuel). -/
def getJumpMovesWithPositions (pieces : List Piece) (piece : Piece)
    (fromPos : GridPos) (capturedSoFar : List GridPos) : List TargetMove :=
  jumpMovesAux pieces piece (pieces.length + 1) fromPos capturedSoFar

/-- getJumpMoves from the source: identical recursion, but the results carry
only success and the captured list. -/
def getJumpMoves (pieces : List Piece) (piece : Piece)
    (fromPos : GridPos) (capturedSoFar : List GridPos) : List MoveResult :=
  (getJumpMovesWithPositions pieces piece fromPos capturedSoFar).map
    (fun m => { success := true, captured := some m.captured })

/-- The King slide distances of getValidMoves: successive distances 1..9 while
on board and empty (loop breaks at the first failure). -/
def kingSlideDistances (pieces : List Piece) (fromPos d : GridPos) : List Nat :=
  (List.range' 1 9).takeWhile (fun i =>
    isOnBoard (stepPos fromPos d i) && (getPieceAt pieces (stepPos fromPos d i)).isNone)

/-- getValidMoves: simple moves (without target bookkeeping) plus jump moves. -/
def getValidMoves (pieces : List Piece) (piece : Piece) : List MoveResult :=
  let regular : List MoveResult :=
    if piece.isKing then
      (getMovementDirections piece).flatMap (fun d =>
        (kingSlideDistances pieces piece.pos d).map (fun _ => { success := true }))
    else
      (getMovementDirections piece).flatMap (fun d =>
        let oneSpace := stepPos piece.pos d 1
        if isOnBoard oneSpace && (getPieceAt pieces oneSpace).isNone then
          if isForwardMove piece d then [{ success := true }] else []
        else [])
  regular ++ getJumpMoves pieces piece piece.pos []

/-- canCapture: the piece has a valid move with a nonempty captured list. -/
def canCapture (pieces : List Piece) (piece : Piece) : Bool :=
  (getValidMoves pieces piece).any (fun m =>
    match m.captured with
    | some l => decide (0 < l.length)
    | none => false)

/-- hasAvailableJumps: some piece of the given color can capture. -/
def hasAvailableJumps (pieces : List Piece) (color : Color) : Bool :=
  (pieces.filter (fun p => p.color == color)).any (fun p => canCapture pieces p)

/-- checkForForcedCaptures: indices of the current player pieces that can
capture (the new value of mustCaptureFrom at a turn switch). -/
def forcedCaptureIndices (pieces : List Piece) (player : Color) : List Nat :=
  ((pieces.enum.filter (fun pr => pr.2.color == player && canCapture pieces pr.2)).map
    (fun pr => pr.1))

/-- checkWinner: white when black has no pieces, else black when white has no
pieces, else none. -/
def checkWinner (pieces : List Piece) : Option Color :=
  let blackPieces := (pieces.filter (fun p => p.color == Color.black)).length
  let whitePieces := (pieces.filter (fun p => p.color == Color.white)).length
  if blackPieces = 0 then some Color.white
  else if whitePieces = 0 then some Color.black
  else none

/-- getPieceCounts. -/
def getPieceCounts (pieces : List Piece) : Nat × Nat :=
  ((pieces.filter (fun p => p.color == Color.black)).length,
   (pieces.filter (fun p => p.color == Color.white)).length)

/-- removePiece: erase the piece (the source looks its index up with
reference-equality indexOf; since getPieceAt returns the first piece at a
square, the first structurally equal element is that same element), then
shift the stored selection and must-capture indices past the removed slot. -/
def removePiece (st : GameState) (p : Piece) : GameState :=
  match st.pieces.findIdx? (fun q => q == p) with
  | none => st
  | some index =>
    { st with
      pieces := st.pieces.eraseIdx index,
      selectedPieceIndex :=
        if (index : Int) < st.selectedPieceIndex then st.selectedPieceIndex - 1
        else if st.selectedPieceIndex = (index : Int) then -1
        else st.selectedPieceIndex,
      mustCaptureFrom := st.mustCaptureFrom.map (fun i => if index < i then i - 1 else i) }

/-- Sign of the per-step coordinate change, dx / abs(dx) in the source
(only used with dx nonzero). -/
def sgn (n : Int) : Int := if n < 0 then -1 else 1

/-- isValidKingMove: diagonal with every strictly intermediate square empty. -/
def isValidKingMove (pieces : List Piece) (piece : Piece) (t : GridPos) : Bool :=
  if !piece.isKing then false
  else
    let dx := t.x - piece.pos.x
    let dz := t.z - piece.pos.z
    if dx.natAbs != dz.natAbs then false
    else
      let steps := dx.natAbs
      let d : GridPos := ⟨sgn dx, sgn dz⟩
      (List.range' 1 (steps - 1)).all (fun i =>
        (getPieceAt pieces (stepPos piece.pos d i)).isNone)

/-- checkKingPromotion: a Man on the far back row for its color. -/
def checkKingPromotion (piece : Piece) : Bool :=
  if piece.isKing then false
  else if piece.color == Color.black && decide (9 ≤ piece.pos.z) then true
  else if piece.color == Color.white && decide (piece.pos.z ≤ 0) then true
  else false

/-- executeRegularMove: reject if any friendly capture is available, require
an exactly diagonal single step, forward for a Man, then relocate. -/
def executeRegularMove (st : GameState) (i : Nat) (piece : Piece) (t : GridPos)
    (spaces : Int) : MoveResult × GameState :=
  if hasAvailableJumps st.pieces piece.color then
    ({ success := false, message := some .mustCaptureWhenAvailable }, st)
  else
    let dx := (t.x - piece.pos.x) / spaces
    let dz := (t.z - piece.pos.z) / spaces
    if !(dx.natAbs == 1 && dz.natAbs == 1) then
      ({ success := false, message := some .mustMoveDiagonally }, st)
    else if !piece.isKing && !(isForwardMove piece ⟨dx, dz⟩) then
      ({ success := false, message := some .onlyForward }, st)
    else
      ({ success := true }, { st with pieces := st.pieces.set i { piece with pos := t } })

/-- executeKingMove: reject if any friendly capture is available, else relocate
(the clear-path condition was already checked by the caller). -/
def executeKingMove (st : GameState) (i : Nat) (piece : Piece) (t : GridPos) :
    MoveResult × GameState :=
  if hasAvailableJumps st.pieces piece.color then
    ({ success := false, message := some .mustCaptureWhenAvailable }, st)
  else
    ({ success := true }, { st with pieces := st.pieces.set i { piece with pos := t } })

/-- Result of the executeJumpMove scan over the strictly intermediate squares:
no piece found, exactly one, or at least two. -/
inductive JumpScan where
  | nothing
  | one (q : Piece) (pos : GridPos)
  | two
deriving DecidableEq, Repr

/-- One step of the executeJumpMove scan over an intermediate square. -/
def jumpScanStep (pieces : List Piece) (fromPos d : GridPos) (acc : JumpScan) (i : Nat) : JumpScan :=
  match acc with
  | .two => .two
  | _ =>
    match getPieceAt pieces (stepPos fromPos d i) with
    | some q =>
      match acc with
      | .nothing => .one q (stepPos fromPos d i)
      | _ => .two
    | none => acc

/-- The executeJumpMove scan: walk the strictly intermediate squares in order;
a second piece makes the jump illegal (the source returns the failure
immediately; the fold keeps the two state absorbing). -/
def findJumpedPiece (pieces : List Piece) (fromPos d : GridPos) (distance : Nat) : JumpScan :=
  (List.range' 1 (distance - 1)).foldl (jumpScanStep pieces fromPos d) .nothing

/-- executeJumpMove: validate geometry and the jumped piece, then relocate the
mover and remove the captured piece, reporting its square. -/
def executeJumpMove (st : GameState) (i : Nat) (piece : Piece) (t : GridPos) :
    MoveResult × GameState :=
  let dx := t.x - piece.pos.x
  let dz := t.z - piece.pos.z
  if dx.natAbs != dz.natAbs then
    ({ success := false, message := some .jumpMustBeDiagonal }, st)
  else
    let distance := dx.natAbs
    if !piece.isKing && distance != 2 then
      ({ success := false, message := some .invalidJumpDistance }, st)
    else if piece.isKing && distance < 2 then
      ({ success := false, message := some .invalidJumpDistance }, st)
    else
      let d : GridPos := ⟨sgn dx, sgn dz⟩
      match findJumpedPiece st.pieces piece.pos d distance with
      | .two => ({ success := false, message := some .cannotJumpTwoPieces }, st)
      | .nothing => ({ success := false, message := some .noPieceToJump }, st)
      | .one q qpos =>
        if q.color == piece.color then
          ({ success := false, message := some .cannotJumpOwnPiece }, st)
        else
          let st1 := { st with pieces := st.pieces.set i { piece with pos := t } }
          let st2 := removePiece st1 q
          ({ success := true, captured := some [qpos] }, st2)

/-- Does a MoveResult report at least one captured square. -/
def capturedNonempty (res : MoveResult) : Bool :=
  match res.captured with
  | some l => decide (0 < l.length)
  | none => false

/-- The tail of movePiece, run when the move itself succeeded: mark the piece
moved, apply promotion, then either keep the turn with the must-continue
state pinned to this piece, or switch turns and recompute forced captures. -/
def postProcess (res : MoveResult) (st1 : GameState) : Option (MoveResult × GameState) :=
  if !res.success then some (res, st1)
  else if st1.selectedPieceIndex < 0 then none
  else
    let i := st1.selectedPieceIndex.toNat
    match st1.pieces[i]? with
    | none => none
    | some piece0 =>
      let piece1 := { piece0 with hasMoved := true }
      let shouldPromote := checkKingPromotion piece1
      let piece2 := if shouldPromote then { piece1 with isKing := true } else piece1
      let res2 := if shouldPromote then { res with becameKing := some true } else res
      let st2 := { st1 with pieces := st1.pieces.set i piece2 }
      if capturedNonempty res2 && canCapture st2.pieces piece2 then
        some (res2, { st2 with mustCaptureFrom := [i] })
      else
        let newPlayer := st2.currentPlayer.opposite
        some (res2, { st2 with
          currentPlayer := newPlayer,
          selectedPieceIndex := -1,
          mustCaptureFrom := forcedCaptureIndices st2.pieces newPlayer })

/-- movePiece: the public move entry point.  Returns none exactly where the
source would crash on an out-of-range piece index. -/
def movePiece (st : GameState) (t : GridPos) : Option (MoveResult × GameState) :=
  if st.selectedPieceIndex < 0 then
    some ({ success := false, message := some .noPieceSelected }, st)
  else
    match st.pieces[st.selectedPieceIndex.toNat]? with
    | none => none
    | some piece =>
      if piece.color != st.currentPlayer then
        some ({ success := false, message := some .wrongTurn }, st)
      else if !st.mustCaptureFrom.isEmpty &&
          !(st.mustCaptureFrom.contains st.selectedPieceIndex.toNat) then
        some ({ success := false, message := some .mustContinueCapturing }, st)
      else
        let dx := t.x - piece.pos.x
        let dz := t.z - piece.pos.z
        if (getPieceAt st.pieces t).isSome then
          some ({ success := false, message := some .targetOccupied }, st)
        else
          let i := st.selectedPieceIndex.toNat
          if dx.natAbs == dz.natAbs && decide (7 ≤ dx * dx + dz * dz) then
            let d : GridPos := ⟨sgn dx, sgn dz⟩
            let hasPieceToJump := (List.range' 1 (dx.natAbs - 1)).any (fun k =>
              (getPieceAt st.pieces (stepPos piece.pos d k)).isSome)
            if hasPieceToJump then
              let pr := executeJumpMove st i piece t
              postProcess pr.1 pr.2
            else if piece.isKing && isValidKingMove st.pieces piece t then
              let pr := executeKingMove st i piece t
              postProcess pr.1 pr.2
            else
              some ({ success := false, message := some .invalidMove }, st)
          else if dx * dx + dz * dz == 2 then
            let pr := executeRegularMove st i piece t 1
            postProcess pr.1 pr.2
          else
            some ({ success := false, message := some .invalidMoveDistance }, st)

/-- skipTurn: unconditionally switch sides, clear selection and must-capture
state, then recompute forced captures for the new player. -/
def skipTurn (st : GameState) : GameState :=
  let newPlayer := st.currentPlayer.opposite
  { st with
    currentPlayer := newPlayer,
    selectedPieceIndex := -1,
    mustCaptureFrom := forcedCaptureIndices st.pieces newPlayer }

/-- selectPieceByIndex: only indices of live pieces are accepted. -/
def selectPieceByIndex (st : GameState) (index : Nat) : GameState :=
  if index < st.pieces.length then { st with selectedPieceIndex := (index : Int) } else st

/-- deselectPiece (the graphics bookkeeping is omitted). -/
def deselectPiece (st : GameState) : GameState :=
  if 0 ≤ st.selectedPieceIndex ∧ st.selectedPieceIndex < (st.pieces.length : Int) then
    { st with selectedPieceIndex := -1 }
  else st

/-- Dark squares: (row + col) odd. -/
def darkSquare (row col : Nat) : Bool := (row + col) % 2 == 1

/-- Black setup squares, row-major over rows 0..3 and columns 0..9. -/
def blackInitPositions : List GridPos :=
  (List.range 4).flatMap (fun row =>
    (List.range 10).filterMap (fun col =>
      if darkSquare row col then some ⟨(col : Int), (row : Int)⟩ else none))

/-- White setup squares, row-major over rows 6..9 and columns 0..9
(WHITE_PIECE_START_ROW = 6). -/
def whiteInitPositions : List GridPos :=
  (List.range 4).flatMap (fun row =>
    (List.range 10).filterMap (fun col =>
      if darkSquare (row + 6) col then some ⟨(col : Int), ((row : Int) + 6)⟩ else none))

/-- initPieces: black pieces first, then white, as created by the source. -/
def initPieces : List Piece :=
  blackInitPositions.map (fun p => ⟨p, Color.black, false, false⟩) ++
  whiteInitPositions.map (fun p => ⟨p, Color.white, false, false⟩)

/-- initializeBoard: remove all pieces and selection, fix the bot to black and
the starting player to white, then create the 40 setup pieces.  The source
does not touch mustCaptureFrom here. -/
def initializeBoard (st : GameState) : GameState :=
  { st with
    pieces := initPieces,
    selectedPieceIndex := -1,
    botColor := Color.black,
    startingPlayer := Color.white,
    currentPlayer := Color.white }

/-- wouldBecomeKing: promotion test at a hypothetical square. -/
def wouldBecomeKing (piece : Piece) (pos : GridPos) : Bool :=
  if piece.isKing then false
  else if piece.color == Color.black && decide (9 ≤ pos.z) then true
  else if piece.color == Color.white && decide (pos.z ≤ 0) then true
  else false

/-- A candidate move of getValidMovesForPiece: a landing square plus the
captured squares when it is a jump. -/
structure BotCandidate where
  targetPos : GridPos
  captured : Option (List GridPos) := none
deriving DecidableEq, Repr

/-- getValidMovesForPiece: simple moves (suppressed while any friendly capture
is available) followed by the jump moves, with landing squares. -/
def getValidMovesForPiece (pieces : List Piece) (piece : Piece) : List BotCandidate :=
  let regular : List BotCandidate :=
    if !(hasAvailableJumps pieces piece.color) then
      if piece.isKing then
        (getMovementDirections piece).flatMap (fun d =>
          (kingSlideDistances pieces piece.pos d).map (fun i =>
            { targetPos := stepPos piece.pos d i }))
      else
        (getMovementDirections piece).flatMap (fun d =>
          if isForwardMove piece d then
            let oneSpace := stepPos piece.pos d 1
            if isOnBoard oneSpace && (getPieceAt pieces oneSpace).isNone then
              [{ targetPos := oneSpace }]
            else []
          else [])
    else []
  regular ++ (getJumpMovesWithPositions pieces piece piece.pos []).map
    (fun m => { targetPos := m.targetPos, captured := some m.captured })

/-- A scored candidate of makeBotMove (the BotMove record of the source). -/
structure BotMove where
  pieceIndex : Nat
  targetPos : GridPos
  captureCount : Nat
  becomesKing : Bool
  moveScore : ℚ
deriving DecidableEq, Repr

/-- The indexed bot pieces makeBotMove considers: those with captures when any
exist, otherwise all bot pieces. -/
def botPiecesToConsider (st : GameState) : List (Nat × Piece) :=
  let botPieces := st.pieces.enum.filter (fun pr => pr.2.color == st.botColor)
  let piecesWithCaptures := botPieces.filter (fun pr => canCapture st.pieces pr.2)
  if !piecesWithCaptures.isEmpty then piecesWithCaptures else botPieces

/-- The scoring formula of makeBotMove.  The Math.random()*2 jitter is
modelled by an arbitrary rational passed in by the caller. -/
def botMoveScore (captureCount : Nat) (becomesKing moverIsKing : Bool) (jitter : ℚ) : ℚ :=
  10 * captureCount + (if becomesKing then 5 else 0) + (if moverIsKing then 1 else 0) + jitter

/-- All scored candidates of makeBotMove, in source enumeration order.  The
jitter function gives the Math.random()*2 draw of the n-th candidate. -/
def botAllMoves (st : GameState) (jitter : Nat → ℚ) : List BotMove :=
  let raw : List (Nat × Piece × BotCandidate) :=
    (botPiecesToConsider st).flatMap (fun pr =>
      (getValidMovesForPiece st.pieces pr.2).map (fun c => (pr.1, pr.2, c)))
  raw.enum.map (fun en =>
    let captureCount := match en.2.2.2.captured with
      | some l => l.length
      | none => 0
    let becomesKing := wouldBecomeKing en.2.2.1 en.2.2.2.targetPos
    { pieceIndex := en.2.1,
      targetPos := en.2.2.2.targetPos,
      captureCount := captureCount,
      becomesKing := becomesKing,
      moveScore := botMoveScore captureCount becomesKing en.2.2.1.isKing (jitter en.1) })

/-- makeBotMove sorts allMoves by descending moveScore and executes the head;
this definition is that selection step. -/
def bestBotMove (st : GameState) (jitter : Nat → ℚ) : Option BotMove :=
  ((botAllMoves st jitter).mergeSort (fun a b => decide (b.moveScore ≤ a.moveScore))).head?

/-! ### Structural lemmas about the move execution helpers -/

theorem mem_of_getElem?_some {α : Type} {l : List α} {n : Nat} {a : α}
    (h : l[n]? = some a) : a ∈ l := by
  rcases List.getElem?_eq_some_iff.mp h with ⟨hw, hv⟩
  exact hv ▸ List.getElem_mem hw

theorem executeRegularMove_spec (st : GameState) (i : Nat) (piece : Piece) (t : GridPos)
    (res : MoveResult) (st1 : GameState)
    (h : executeRegularMove st i piece t 1 = (res, st1)) :
    (res.success = false ∧ st1 = st ∧ res.captured = none ∧ res.becameKing = none ∧
      (∃ m, res.message = some m)) ∨
    (res = { success := true } ∧
      st1 = { st with pieces := st.pieces.set i { piece with pos := t } } ∧
      hasAvailableJumps st.pieces piece.color = false ∧
      (t.x - piece.pos.x).natAbs = 1 ∧ (t.z - piece.pos.z).natAbs = 1) := by
  unfold executeRegularMove at h
  rw [Int.ediv_one, Int.ediv_one] at h
  split at h
  · cases h
    exact Or.inl ⟨rfl, rfl, rfl, rfl, _, rfl⟩
  · rename_i hjumps
    dsimp only at h
    split at h
    · cases h
      exact Or.inl ⟨rfl, rfl, rfl, rfl, _, rfl⟩
    · rename_i habs
      split at h
      · cases h
        exact Or.inl ⟨rfl, rfl, rfl, rfl, _, rfl⟩
      · cases h
        simp only [Bool.not_eq_true, Bool.not_eq_eq_eq_not, Bool.not_true, Bool.and_eq_false_iff,
          beq_eq_false_iff_ne, ne_eq, not_or, not_not] at habs
        exact Or.inr ⟨rfl, rfl, by simpa using hjumps, habs.1, habs.2⟩

theorem executeKingMove_spec (st : GameState) (i : Nat) (piece : Piece) (t : GridPos)
    (res : MoveResult) (st1 : GameState)
    (h : executeKingMove st i piece t = (res, st1)) :
    (res.success = false ∧ st1 = st ∧ res.captured = none ∧ res.becameKing = none ∧
      (∃ m, res.message = some m)) ∨
    (res = { success := true } ∧
      st1 = { st with pieces := st.pieces.set i { piece with pos := t } } ∧
      hasAvailableJumps st.pieces piece.color = false) := by
  unfold executeKingMove at h
  split at h
  · cases h
    exact Or.inl ⟨rfl, rfl, rfl, rfl, _, rfl⟩
  · rename_i hjumps
    cases h
    exact Or.inr ⟨rfl, rfl, by simpa using hjumps⟩

theorem getPieceAt_eq_some {pieces : List Piece} {p : GridPos} {q : Piece}
    (h : getPieceAt pieces p = some q) : q ∈ pieces ∧ q.pos = p := by
  unfold getPieceAt at h
  refine ⟨List.mem_of_find?_eq_some h, ?_⟩
  have := List.find?_some h
  simpa [beq_iff_eq] using this

theorem jumpScan_foldl_two (pieces : List Piece) (fromPos d : GridPos) :
    ∀ l : List Nat, l.foldl (jumpScanStep pieces fromPos d) .two = .two := by
  intro l
  induction l with
  | nil => rfl
  | cons x xs ih => simpa [jumpScanStep] using ih

theorem jumpScan_foldl_one (pieces : List Piece) (fromPos d : GridPos) :
    ∀ (l : List Nat) (acc : JumpScan) (q : Piece) (qpos : GridPos),
      l.foldl (jumpScanStep pieces fromPos d) acc = .one q qpos →
      (acc = .one q qpos ∧ ∀ j ∈ l, getPieceAt pieces (stepPos fromPos d j) = none) ∨
      (acc = .nothing ∧ ∃ m ∈ l, getPieceAt pieces (stepPos fromPos d m) = some q ∧
        qpos = stepPos fromPos d m ∧
        ∀ j ∈ l, j ≠ m → getPieceAt pieces (stepPos fromPos d j) = none) := by
  intro l
  induction l with
  | nil =>
    intro acc q qpos h
    exact Or.inl ⟨h, by simp⟩
  | cons x xs ih =>
    intro acc q qpos h
    rw [List.foldl_cons] at h
    match hacc : acc with
    | .two =>
      rw [show jumpScanStep pieces fromPos d .two x = .two from rfl,
        jumpScan_foldl_two] at h
      cases h
    | .one q0 p0 =>
      by_cases hx : ∃ r, getPieceAt pieces (stepPos fromPos d x) = some r
      · obtain ⟨r, hr⟩ := hx
        rw [show jumpScanStep pieces fromPos d (.one q0 p0) x = .two by
          simp [jumpScanStep, hr], jumpScan_foldl_two] at h
        cases h
      · push_neg at hx
        have hnone : getPieceAt pieces (stepPos fromPos d x) = none := by
          cases hgp : getPieceAt pieces (stepPos fromPos d x) with
          | none => rfl
          | some r => exact absurd hgp (hx r)
        rw [show jumpScanStep pieces fromPos d (.one q0 p0) x = .one q0 p0 by
          simp [jumpScanStep, hnone]] at h
        rcases ih (.one q0 p0) q qpos h with ⟨heq, hall⟩ | ⟨heq, _⟩
        · cases heq
          refine Or.inl ⟨rfl, ?_⟩
          intro j hj
          rcases List.mem_cons.mp hj with rfl | hj
          · exact hnone
          · exact hall j hj
        · cases heq
    | .nothing =>
      by_cases hx : ∃ r, getPieceAt pieces (stepPos fromPos d x) = some r
      · obtain ⟨r, hr⟩ := hx
        rw [show jumpScanStep pieces fromPos d .nothing x = .one r (stepPos fromPos d x) by
          simp [jumpScanStep, hr]] at h
        rcases ih _ q qpos h with ⟨heq, hall⟩ | ⟨heq, _⟩
        · have hq : r = q ∧ stepPos fromPos d x = qpos := by
            cases heq; exact ⟨rfl, rfl⟩
          refine Or.inr ⟨rfl, x, List.mem_cons_self x xs, ?_, hq.2.symm, ?_⟩
          · rw [hq.1] at hr; exact hr
          · intro j hj hjx
            rcases List.mem_cons.mp hj with rfl | hj
            · exact absurd rfl hjx
            · exact hall j hj
        · cases heq
      · push_neg at hx
        have hnone : getPieceAt pieces (stepPos fromPos d x) = none := by
          cases hgp : getPieceAt pieces (stepPos fromPos d x) with
          | none => rfl
          | some r => exact absurd hgp (hx r)
        rw [show jumpScanStep pieces fromPos d .nothing x = .nothing by
          simp [jumpScanStep, hnone]] at h
        rcases ih .nothing q qpos h with ⟨heq, _⟩ | ⟨_, m, hm, hqm, hqpos, hall⟩
        · cases heq
        · refine Or.inr ⟨rfl, m, List.mem_cons_of_mem x hm, hqm, hqpos, ?_⟩
          intro j hj hjm
          rcases List.mem_cons.mp hj with rfl | hj
          · exact hnone
          · exact hall j hj hjm

theorem executeJumpMove_spec (st : GameState) (i : Nat) (piece : Piece) (t : GridPos)
    (res : MoveResult) (st1 : GameState)
    (h : executeJumpMove st i piece t = (res, st1)) :
    (res.success = false ∧ st1 = st ∧ res.captured = none ∧ res.becameKing = none ∧
      (∃ m, res.message = some m)) ∨
    (∃ q qpos,
      res = { success := true, captured := some [qpos] } ∧
      (t.x - piece.pos.x).natAbs = (t.z - piece.pos.z).natAbs ∧
      2 ≤ (t.x - piece.pos.x).natAbs ∧
      q.color ≠ piece.color ∧ q.pos = qpos ∧
      getPieceAt st.pieces qpos = some q ∧
      (∃ m ∈ List.range' 1 ((t.x - piece.pos.x).natAbs - 1),
        qpos = stepPos piece.pos ⟨sgn (t.x - piece.pos.x), sgn (t.z - piece.pos.z)⟩ m ∧
        ∀ j ∈ List.range' 1 ((t.x - piece.pos.x).natAbs - 1), j ≠ m →
          getPieceAt st.pieces
            (stepPos piece.pos ⟨sgn (t.x - piece.pos.x), sgn (t.z - piece.pos.z)⟩ j) = none) ∧
      st1 = removePiece { st with pieces := st.pieces.set i { piece with pos := t } } q) := by
  unfold executeJumpMove at h
  dsimp only at h
  split at h
  · cases h
    exact Or.inl ⟨rfl, rfl, rfl, rfl, _, rfl⟩
  · rename_i hdiag
    split at h
    · cases h
      exact Or.inl ⟨rfl, rfl, rfl, rfl, _, rfl⟩
    · rename_i hman
      split at h
      · cases h
        exact Or.inl ⟨rfl, rfl, rfl, rfl, _, rfl⟩
      · rename_i hking
        have hD : (t.x - piece.pos.x).natAbs = (t.z - piece.pos.z).natAbs := by
          simpa using hdiag
        have h2 : 2 ≤ (t.x - piece.pos.x).natAbs := by
          cases hcK : piece.isKing with
          | true =>
            simp only [hcK, Bool.true_and, decide_eq_true_eq] at hking
            omega
          | false =>
            simp only [hcK, Bool.not_false, Bool.true_and] at hman
            have : (t.x - piece.pos.x).natAbs = 2 := by simpa using hman
            omega
        split at h
        · cases h
          exact Or.inl ⟨rfl, rfl, rfl, rfl, _, rfl⟩
        · cases h
          exact Or.inl ⟨rfl, rfl, rfl, rfl, _, rfl⟩
        · rename_i q qpos hscan
          split at h
          · cases h
            exact Or.inl ⟨rfl, rfl, rfl, rfl, _, rfl⟩
          · rename_i hcolor
            cases h
            have hscan2 := hscan
            unfold findJumpedPiece at hscan2
            rcases jumpScan_foldl_one st.pieces piece.pos _ _ _ q qpos hscan2 with
              ⟨heq, _⟩ | ⟨_, m, hm, hqm, hqpos, hall⟩
            · cases heq
            · have hq := getPieceAt_eq_some hqm
              refine Or.inr ⟨q, qpos, rfl, hD, h2, ?_, ?_, ?_, ⟨m, hm, hqpos, hall⟩, rfl⟩
              · simpa [beq_iff_eq] using hcolor
              · rw [hqpos]; exact hq.2
              · rw [hqpos]; exact hqm

theorem set_eraseIdx_comm {α : Type} (l : List α) (i k : Nat) (a : α)
    (hik : i ≠ k) (hi : i < l.length) (hk : k < l.length) :
    (l.set i a).eraseIdx k = (l.eraseIdx k).set (if k < i then i - 1 else i) a := by
  have hlen : (l.eraseIdx k).length = l.length - 1 := List.length_eraseIdx_of_lt hk
  apply List.ext_getElem?
  intro n
  simp only [List.getElem?_eraseIdx, List.getElem?_set, hlen]
  split_ifs <;> first | rfl | omega

theorem removePiece_set_spec (st : GameState) (i : Nat) (piece a q : Piece) (qpos : GridPos)
    (hi : st.pieces[i]? = some piece)
    (hq : getPieceAt st.pieces qpos = some q)
    (hqpos : q.pos = qpos)
    (hcolor : q.color ≠ piece.color)
    (hacol : a.color = piece.color)
    (hapos : a.pos ≠ qpos) :
    ∃ k, k < st.pieces.length ∧ k ≠ i ∧ st.pieces[k]? = some q ∧
      removePiece { st with pieces := st.pieces.set i a } q =
        { st with
          pieces := (st.pieces.set i a).eraseIdx k,
          selectedPieceIndex :=
            if (k : Int) < st.selectedPieceIndex then st.selectedPieceIndex - 1
            else if st.selectedPieceIndex = (k : Int) then -1
            else st.selectedPieceIndex,
          mustCaptureFrom := st.mustCaptureFrom.map (fun j => if k < j then j - 1 else j) } := by
  unfold getPieceAt at hq
  rcases List.find?_eq_some.mp hq with ⟨hpred, as, bs, hsplit, hbefore⟩
  refine ⟨as.length, ?_, ?_, ?_, ?_⟩
  · rw [hsplit]
    simp
  · intro hcon
    rw [← hcon] at hi
    have : st.pieces[as.length]? = some q := by
      rw [hsplit, List.getElem?_append_right (Nat.le_refl _)]
      simp
    rw [this] at hi
    cases hi
    exact hcolor rfl
  · rw [hsplit, List.getElem?_append_right (Nat.le_refl _)]
    simp
  · have hqmem : st.pieces[as.length]? = some q := by
      rw [hsplit, List.getElem?_append_right (Nat.le_refl _)]
      simp
    have hklen : as.length < st.pieces.length := by
      rw [hsplit]; simp
    have hki : as.length ≠ i := by
      intro hcon
      rw [hcon, hi] at hqmem
      cases hqmem
      exact hcolor rfl
    have hmemset : q ∈ st.pieces.set i a := by
      have hgs : (st.pieces.set i a)[as.length]? = some q := by
        rw [List.getElem?_set, if_neg (fun hcon => hki hcon.symm)]
        exact hqmem
      rcases List.getElem?_eq_some_iff.mp hgs with ⟨hw, hv⟩
      exact hv ▸ List.getElem_mem hw
    have hfind : (st.pieces.set i a).findIdx? (fun r => r == q) = some as.length := by
      rw [List.findIdx?_eq_some_of_exists ⟨q, hmemset, by simp⟩]
      congr 1
      have hlen : as.length < (st.pieces.set i a).length := by
        rw [List.length_set]; exact hklen
      rw [List.findIdx_eq hlen]
      constructor
      · have : (st.pieces.set i a)[as.length]? = some q := by
          rw [List.getElem?_set, if_neg (fun hcon => hki hcon.symm)]
          exact hqmem
        rcases List.getElem?_eq_some_iff.mp this with ⟨hw, hv⟩
        simp [hv]
      · intro j hj
        by_cases hji : j = i
        · subst hji
          have : (st.pieces.set j a)[j] = a := List.getElem_set_self (by omega)
          rw [this]
          simp only [beq_eq_false_iff_ne, ne_eq]
          intro hcon
          rw [hcon] at hapos
          exact hapos hqpos
        · have hjlen : j < st.pieces.length := by omega
          have hjv : (st.pieces.set i a)[j]? = st.pieces[j]? := by
            rw [List.getElem?_set, if_neg (fun hcon => hji hcon.symm)]
          have hjas : st.pieces[j]? = as[j]? := by
            rw [hsplit, List.getElem?_append_left hj]
          rcases List.getElem?_eq_some_iff.mp
            (hjas ▸ (List.getElem?_eq_getElem hjlen)) with ⟨hw2, hv2⟩
          have hmem2 : st.pieces[j] ∈ as := hv2 ▸ List.getElem_mem hw2
          have := hbefore _ hmem2
          have hne : st.pieces[j].pos ≠ qpos := by
            simpa [beq_iff_eq] using this
          have : (st.pieces.set i a)[j] = st.pieces[j] := by
            have h1 := List.getElem?_eq_getElem (l := st.pieces.set i a)
              (n := j) (by rw [List.length_set]; omega)
            rw [hjv, List.getElem?_eq_getElem hjlen] at h1
            exact (Option.some.inj h1).symm
          rw [this]
          simp only [beq_eq_false_iff_ne, ne_eq]
          intro hcon
          rw [hcon] at hne
          exact hne hqpos
    unfold removePiece
    rw [hfind]

theorem postProcess_failure (res : MoveResult) (st1 : GameState)
    (hres : res.success = false) :
    postProcess res st1 = some (res, st1) := by
  unfold postProcess
  rw [hres]
  rfl

theorem postProcess_success_spec (res : MoveResult) (st1 : GameState)
    (res2 : MoveResult) (st2 : GameState)
    (hres : res.success = true)
    (h : postProcess res st1 = some (res2, st2)) :
    ∃ (i : Nat) (piece0 : Piece),
      st1.selectedPieceIndex = (i : Int) ∧
      st1.pieces[i]? = some piece0 ∧
      ∃ final : Piece,
        final.pos = piece0.pos ∧ final.color = piece0.color ∧ final.hasMoved = true ∧
        final.isKing = (piece0.isKing || checkKingPromotion { piece0 with hasMoved := true }) ∧
        res2.success = true ∧ res2.captured = res.captured ∧ res2.message = res.message ∧
        st2.pieces = st1.pieces.set i final ∧
        st2.startingPlayer = st1.startingPlayer ∧ st2.botColor = st1.botColor ∧
        ((capturedNonempty res = true ∧ canCapture (st1.pieces.set i final) final = true ∧
          st2.currentPlayer = st1.currentPlayer ∧
          st2.selectedPieceIndex = st1.selectedPieceIndex ∧
          st2.mustCaptureFrom = [i]) ∨
         ((capturedNonempty res = true → canCapture (st1.pieces.set i final) final = false) ∧
          st2.currentPlayer = st1.currentPlayer.opposite ∧
          st2.selectedPieceIndex = -1 ∧
          st2.mustCaptureFrom = forcedCaptureIndices (st1.pieces.set i final) st2.currentPlayer)) := by
  unfold postProcess at h
  rw [hres] at h
  simp only [Bool.not_true, Bool.false_eq_true, if_false] at h
  split at h
  · cases h
  · rename_i hsel
    split at h
    · cases h
    · rename_i piece0 hp0
      have hselnat : st1.selectedPieceIndex = (st1.selectedPieceIndex.toNat : Int) := by
        omega
      refine ⟨st1.selectedPieceIndex.toNat, piece0, hselnat, hp0, ?_⟩
      have hpiece1 : ({ piece0 with hasMoved := true } : Piece) =
          ⟨piece0.pos, piece0.color, piece0.isKing, true⟩ := rfl
      by_cases hpromo : checkKingPromotion { piece0 with hasMoved := true } = true
      · rw [if_pos hpromo, if_pos hpromo] at h
        have hfinal : ({ ({ piece0 with hasMoved := true } : Piece) with isKing := true } : Piece) =
            ⟨piece0.pos, piece0.color,
              piece0.isKing || checkKingPromotion { piece0 with hasMoved := true }, true⟩ := by
          rw [hpromo]
          simp
        rw [hfinal] at h
        refine ⟨⟨piece0.pos, piece0.color,
          piece0.isKing || checkKingPromotion { piece0 with hasMoved := true }, true⟩,
          rfl, rfl, rfl, rfl, ?_⟩
        split at h
        · rename_i hcond
          cases h
          rw [Bool.and_eq_true] at hcond
          exact ⟨rfl, rfl, rfl, rfl, rfl, rfl, Or.inl ⟨hcond.1, hcond.2, rfl, rfl, rfl⟩⟩
        · rename_i hcond
          cases h
          rw [Bool.and_eq_true, not_and] at hcond
          refine ⟨rfl, rfl, rfl, rfl, rfl, rfl, Or.inr ⟨?_, rfl, rfl, rfl⟩⟩
          intro hcn
          exact Bool.not_eq_true _ |>.mp (hcond hcn)
      · rw [if_neg hpromo, if_neg hpromo] at h
        have hfinal : ({ piece0 with hasMoved := true } : Piece) =
            ⟨piece0.pos, piece0.color,
              piece0.isKing || checkKingPromotion { piece0 with hasMoved := true }, true⟩ := by
          rw [Bool.not_eq_true] at hpromo
          rw [hpromo]
          simp
        rw [hfinal] at h
        refine ⟨⟨piece0.pos, piece0.color,
          piece0.isKing || checkKingPromotion { piece0 with hasMoved := true }, true⟩,
          rfl, rfl, rfl, rfl, ?_⟩
        split at h
        · rename_i hcond
          cases h
          rw [Bool.and_eq_true] at hcond
          exact ⟨hres, rfl, rfl, rfl, rfl, rfl, Or.inl ⟨hcond.1, hcond.2, rfl, rfl, rfl⟩⟩
        · rename_i hcond
          cases h
          rw [Bool.and_eq_true, not_and] at hcond
          refine ⟨hres, rfl, rfl, rfl, rfl, rfl, Or.inr ⟨?_, rfl, rfl, rfl⟩⟩
          intro hcn
          exact Bool.not_eq_true _ |>.mp (hcond hcn)

theorem postProcess_simple_spec (st st1 : GameState) (i : Nat) (piece a : Piece) (t : GridPos)
    (res2 : MoveResult) (st' : GameState)
    (hselSt : st.selectedPieceIndex = (i : Int))
    (hpiece : st.pieces[i]? = some piece)
    (ha : a = ⟨t, piece.color, piece.isKing, piece.hasMoved⟩)
    (hst1p : st1.pieces = st.pieces.set i a)
    (hst1sel : st1.selectedPieceIndex = st.selectedPieceIndex)
    (hst1cur : st1.currentPlayer = st.currentPlayer)
    (hst1start : st1.startingPlayer = st.startingPlayer)
    (hst1bot : st1.botColor = st.botColor)
    (h : postProcess { success := true } st1 = some (res2, st')) :
    ∃ final : Piece,
      final.pos = t ∧ final.color = piece.color ∧ final.hasMoved = true ∧
      final.isKing = (piece.isKing || checkKingPromotion ⟨t, piece.color, piece.isKing, true⟩) ∧
      res2.success = true ∧ res2.captured = none ∧
      st'.pieces = st.pieces.set i final ∧
      st'.startingPlayer = st.startingPlayer ∧ st'.botColor = st.botColor ∧
      st'.currentPlayer = st.currentPlayer.opposite ∧
      st'.selectedPieceIndex = -1 ∧
      st'.mustCaptureFrom = forcedCaptureIndices st'.pieces st'.currentPlayer := by
  have hilen : i < st.pieces.length := by
    rcases List.getElem?_eq_some_iff.mp hpiece with ⟨hw, _⟩
    exact hw
  rcases postProcess_success_spec _ _ _ _ rfl h with
    ⟨i1, piece0, hsel1, hp01, final, hfpos, hfcol, hfmoved, hfking,
      hr2s, hr2c, hr2m, hp2, hstart2, hbot2, hbranch⟩
  have hi1 : i1 = i := by
    rw [hst1sel, hselSt] at hsel1
    omega
  rw [hi1] at hp01 hp2 hbranch
  have hp0a : piece0 = a := by
    rw [hst1p, List.getElem?_set, if_pos rfl, if_pos hilen] at hp01
    exact (Option.some.inj hp01).symm
  rw [hp0a, ha] at hfpos hfcol hfking
  have hsetfinal : st1.pieces.set i final = st.pieces.set i final := by
    rw [hst1p, List.set_set]
  rcases hbranch with ⟨hcn, _⟩ | ⟨_, hcp, hsel2, hmc2⟩
  · simp [capturedNonempty] at hcn
  · refine ⟨final, hfpos, hfcol, hfmoved, hfking, hr2s, hr2c, ?_, ?_, ?_, ?_, ?_, ?_⟩
    · rw [hp2, hsetfinal]
    · rw [hstart2, hst1start]
    · rw [hbot2, hst1bot]
    · rw [hcp, hst1cur]
    · exact hsel2
    · rw [hmc2]
      congr 1
      rw [hp2, hsetfinal]

theorem postProcess_jump_spec (st st1 : GameState) (i k : Nat) (piece a q : Piece) (t : GridPos)
    (res2 : MoveResult) (st' : GameState)
    (hselSt : st.selectedPieceIndex = (i : Int))
    (hpiece : st.pieces[i]? = some piece)
    (hklen : k < st.pieces.length)
    (hki : k ≠ i)
    (ha : a = ⟨t, piece.color, piece.isKing, piece.hasMoved⟩)
    (hst1p : st1.pieces = (st.pieces.set i a).eraseIdx k)
    (hst1sel : st1.selectedPieceIndex =
      if (k : Int) < st.selectedPieceIndex then st.selectedPieceIndex - 1
      else if st.selectedPieceIndex = (k : Int) then -1
      else st.selectedPieceIndex)
    (hst1cur : st1.currentPlayer = st.currentPlayer)
    (hst1start : st1.startingPlayer = st.startingPlayer)
    (hst1bot : st1.botColor = st.botColor)
    (h : postProcess { success := true, captured := some [q.pos] } st1 = some (res2, st')) :
    ∃ final : Piece,
      final.pos = t ∧ final.color = piece.color ∧ final.hasMoved = true ∧
      final.isKing = (piece.isKing || checkKingPromotion ⟨t, piece.color, piece.isKing, true⟩) ∧
      res2.success = true ∧ res2.captured = some [q.pos] ∧
      st'.pieces = (st.pieces.eraseIdx k).set (if k < i then i - 1 else i) final ∧
      st'.startingPlayer = st.startingPlayer ∧ st'.botColor = st.botColor ∧
      ((st'.currentPlayer = st.currentPlayer ∧
        st'.selectedPieceIndex = (((if k < i then i - 1 else i) : Nat) : Int) ∧
        st'.mustCaptureFrom = [if k < i then i - 1 else i] ∧
        canCapture st'.pieces final = true) ∨
       (st'.currentPlayer = st.currentPlayer.opposite ∧
        st'.selectedPieceIndex = -1 ∧
        st'.mustCaptureFrom = forcedCaptureIndices st'.pieces st'.currentPlayer ∧
        canCapture st'.pieces final = false)) := by
  have hilen : i < st.pieces.length := by
    rcases List.getElem?_eq_some_iff.mp hpiece with ⟨hw, _⟩
    exact hw
  have hcomm := set_eraseIdx_comm st.pieces i k a (fun hcon => hki hcon.symm) hilen hklen
  have hlenE : (st.pieces.eraseIdx k).length = st.pieces.length - 1 :=
    List.length_eraseIdx_of_lt hklen
  have hi2len : (if k < i then i - 1 else i) < (st.pieces.eraseIdx k).length := by
    rw [hlenE]
    by_cases hc : k < i
    · rw [if_pos hc]; omega
    · rw [if_neg hc]; omega
  rcases postProcess_success_spec _ _ _ _ rfl h with
    ⟨i1, piece0, hsel1, hp01, final, hfpos, hfcol, hfmoved, hfking,
      hr2s, hr2c, hr2m, hp2, hstart2, hbot2, hbranch⟩
  have hselAdj : st1.selectedPieceIndex = (((if k < i then i - 1 else i) : Nat) : Int) := by
    rw [hst1sel, hselSt]
    by_cases hc : k < i
    · rw [if_pos (by omega : (k : Int) < (i : Int)), if_pos hc]
      omega
    · rw [if_neg (by omega : ¬(k : Int) < (i : Int)),
        if_neg (by omega : ¬(i : Int) = (k : Int)), if_neg hc]
  have hi1 : i1 = (if k < i then i - 1 else i) := by
    rw [hselAdj] at hsel1
    omega
  rw [hi1] at hp01 hp2 hbranch
  have hp0a : piece0 = a := by
    rw [hst1p, hcomm, List.getElem?_set, if_pos rfl, if_pos hi2len] at hp01
    exact (Option.some.inj hp01).symm
  rw [hp0a, ha] at hfpos hfcol hfking
  have hsetfinal : st1.pieces.set (if k < i then i - 1 else i) final =
      (st.pieces.eraseIdx k).set (if k < i then i - 1 else i) final := by
    rw [hst1p, hcomm, List.set_set]
  refine ⟨final, hfpos, hfcol, hfmoved, hfking, hr2s, hr2c, ?_, ?_, ?_, ?_⟩
  · rw [hp2, hsetfinal]
  · rw [hstart2, hst1start]
  · rw [hbot2, hst1bot]
  · rcases hbranch with ⟨_, hcc, hcp, hsel2, hmc2⟩ | ⟨hcn, hcp, hsel2, hmc2⟩
    · refine Or.inl ⟨by rw [hcp, hst1cur], by rw [hsel2, hselAdj], hmc2, ?_⟩
      rw [hp2]
      exact hcc
    · have hcc : canCapture st'.pieces final = false := by
        have hcf := hcn (by rfl)
        rw [hp2]
        exact hcf
      refine Or.inr ⟨by rw [hcp, hst1cur], hsel2, ?_, hcc⟩
      rw [hmc2]
      congr 1
      rw [hp2, hsetfinal]

theorem movePiece_failure_spec (st : GameState) (t : GridPos) (res : MoveResult) (st' : GameState)
    (h : movePiece st t = some (res, st'))
    (hfail : res.success = false) :
    st' = st ∧ res.captured = none ∧ (∃ m, res.message = some m) := by
  unfold movePiece at h
  split at h
  · cases h
    exact ⟨rfl, rfl, _, rfl⟩
  · rename_i hsel
    split at h
    · cases h
    · rename_i piece hpiece
      split at h
      · cases h
        exact ⟨rfl, rfl, _, rfl⟩
      · rename_i hturn
        split at h
        · cases h
          exact ⟨rfl, rfl, _, rfl⟩
        · rename_i hmust
          dsimp only at h
          split at h
          · cases h
            exact ⟨rfl, rfl, _, rfl⟩
          · rename_i hocc
            split at h
            · split at h
              · rcases hpr : executeJumpMove st st.selectedPieceIndex.toNat piece t with
                  ⟨resJ, stJ⟩
                rw [hpr] at h
                dsimp only at h
                rcases executeJumpMove_spec _ _ _ _ _ _ hpr with
                  ⟨hfs, hst, hcap, _, m, hmsg⟩ | ⟨q, qpos, hresJ, _⟩
                · rw [postProcess_failure _ _ hfs] at h
                  cases h
                  exact ⟨hst, hcap, m, hmsg⟩
                · rcases postProcess_success_spec resJ stJ res st' (by rw [hresJ]) h with
                    ⟨_, _, _, _, _, _, _, _, _, hr2s, _⟩
                  rw [hr2s] at hfail
                  cases hfail
              · split at h
                · rcases hpr : executeKingMove st st.selectedPieceIndex.toNat piece t with
                    ⟨resK, stK⟩
                  rw [hpr] at h
                  dsimp only at h
                  rcases executeKingMove_spec _ _ _ _ _ _ hpr with
                    ⟨hfs, hst, hcap, _, m, hmsg⟩ | ⟨hresK, _⟩
                  · rw [postProcess_failure _ _ hfs] at h
                    cases h
                    exact ⟨hst, hcap, m, hmsg⟩
                  · rcases postProcess_success_spec resK stK res st' (by rw [hresK]) h with
                      ⟨_, _, _, _, _, _, _, _, _, hr2s, _⟩
                    rw [hr2s] at hfail
                    cases hfail
                · cases h
                  exact ⟨rfl, rfl, _, rfl⟩
            · split at h
              · rcases hpr : executeRegularMove st st.selectedPieceIndex.toNat piece t 1 with
                  ⟨resR, stR⟩
                rw [hpr] at h
                dsimp only at h
                rcases executeRegularMove_spec _ _ _ _ _ _ hpr with
                  ⟨hfs, hst, hcap, _, m, hmsg⟩ | ⟨hresR, _⟩
                · rw [postProcess_failure _ _ hfs] at h
                  cases h
                  exact ⟨hst, hcap, m, hmsg⟩
                · rcases postProcess_success_spec resR stR res st' (by rw [hresR]) h with
                    ⟨_, _, _, _, _, _, _, _, _, hr2s, _⟩
                  rw [hr2s] at hfail
                  cases hfail
              · cases h
                exact ⟨rfl, rfl, _, rfl⟩

theorem movePiece_success_spec (st : GameState) (t : GridPos) (res : MoveResult) (st' : GameState)
    (h : movePiece st t = some (res, st'))
    (hs : res.success = true) :
    ∃ (i : Nat) (piece final : Piece),
      st.selectedPieceIndex = (i : Int) ∧
      st.pieces[i]? = some piece ∧
      piece.color = st.currentPlayer ∧
      getPieceAt st.pieces t = none ∧
      (st.mustCaptureFrom = [] ∨ i ∈ st.mustCaptureFrom) ∧
      (t.x - piece.pos.x).natAbs = (t.z - piece.pos.z).natAbs ∧
      1 ≤ (t.x - piece.pos.x).natAbs ∧
      final.pos = t ∧ final.color = piece.color ∧ final.hasMoved = true ∧
      final.isKing = (piece.isKing || checkKingPromotion ⟨t, piece.color, piece.isKing, true⟩) ∧
      st'.startingPlayer = st.startingPlayer ∧ st'.botColor = st.botColor ∧
      ((res.captured = none ∧
        hasAvailableJumps st.pieces piece.color = false ∧
        st'.pieces = st.pieces.set i final ∧
        st'.currentPlayer = st.currentPlayer.opposite ∧
        st'.selectedPieceIndex = -1 ∧
        st'.mustCaptureFrom = forcedCaptureIndices st'.pieces st'.currentPlayer) ∨
       (∃ (q : Piece) (k : Nat),
         res.captured = some [q.pos] ∧
         st.pieces[k]? = some q ∧ k < st.pieces.length ∧ k ≠ i ∧
         q.color ≠ piece.color ∧
         (∃ m ∈ List.range' 1 ((t.x - piece.pos.x).natAbs - 1),
           q.pos = stepPos piece.pos
             ⟨sgn (t.x - piece.pos.x), sgn (t.z - piece.pos.z)⟩ m ∧
           ∀ j ∈ List.range' 1 ((t.x - piece.pos.x).natAbs - 1), j ≠ m →
             getPieceAt st.pieces
               (stepPos piece.pos
                 ⟨sgn (t.x - piece.pos.x), sgn (t.z - piece.pos.z)⟩ j) = none) ∧
         st'.pieces = (st.pieces.eraseIdx k).set (if k < i then i - 1 else i) final ∧
         ((st'.currentPlayer = st.currentPlayer ∧
           st'.selectedPieceIndex = (((if k < i then i - 1 else i) : Nat) : Int) ∧
           st'.mustCaptureFrom = [if k < i then i - 1 else i] ∧
           canCapture st'.pieces final = true) ∨
          (st'.currentPlayer = st.currentPlayer.opposite ∧
           st'.selectedPieceIndex = -1 ∧
           st'.mustCaptureFrom = forcedCaptureIndices st'.pieces st'.currentPlayer ∧
           canCapture st'.pieces final = false)))) := by
  unfold movePiece at h
  split at h
  · cases h
    cases hs
  · rename_i hsel
    split at h
    · cases h
    · rename_i piece hpiece
      split at h
      · cases h
        cases hs
      · rename_i hturn
        split at h
        · cases h
          cases hs
        · rename_i hmust
          dsimp only at h
          split at h
          · cases h
            cases hs
          · rename_i hocc
            have hselSt : st.selectedPieceIndex = (st.selectedPieceIndex.toNat : Int) := by
              omega
            have hturn2 : piece.color = st.currentPlayer := by
              simpa using hturn
            have hT : getPieceAt st.pieces t = none := by
              cases hgp : getPieceAt st.pieces t with
              | none => rfl
              | some r =>
                rw [hgp] at hocc
                simp at hocc
            have hmust2 : st.mustCaptureFrom = [] ∨
                st.selectedPieceIndex.toNat ∈ st.mustCaptureFrom := by
              by_cases he : st.mustCaptureFrom.isEmpty = true
              · exact Or.inl (List.isEmpty_iff.mp he)
              · by_cases hc : st.mustCaptureFrom.contains st.selectedPieceIndex.toNat = true
                · exact Or.inr (by simpa using hc)
                · rw [Bool.not_eq_true] at he hc
                  exact absurd (by rw [he, hc]; rfl) hmust
            split at h
            · rename_i hbig
              rw [Bool.and_eq_true] at hbig
              have hD : (t.x - piece.pos.x).natAbs = (t.z - piece.pos.z).natAbs := by
                simpa using hbig.1
              have h7 : 7 ≤ (t.x - piece.pos.x) * (t.x - piece.pos.x) +
                  (t.z - piece.pos.z) * (t.z - piece.pos.z) := by
                simpa using hbig.2
              have h1le : 1 ≤ (t.x - piece.pos.x).natAbs := by
                rcases Nat.eq_zero_or_pos (t.x - piece.pos.x).natAbs with hz | hp
                · exfalso
                  have hx0 : t.x - piece.pos.x = 0 := Int.natAbs_eq_zero.mp hz
                  have hz0 : t.z - piece.pos.z = 0 := Int.natAbs_eq_zero.mp (hD ▸ hz)
                  rw [hx0, hz0] at h7
                  norm_num at h7
                · exact hp
              split at h
              · rcases hpr : executeJumpMove st st.selectedPieceIndex.toNat piece t with
                  ⟨resJ, stJ⟩
                rw [hpr] at h
                dsimp only at h
                rcases executeJumpMove_spec _ _ _ _ _ _ hpr with
                  ⟨hfs, _⟩ | ⟨q, qpos, hresJ, hDJ, h2J, hqcol, hqpos, hqat, hbetween, hstJ⟩
                · rw [postProcess_failure _ _ hfs] at h
                  cases h
                  rw [hfs] at hs
                  cases hs
                · have hapos : (⟨t, piece.color, piece.isKing, piece.hasMoved⟩ : Piece).pos ≠
                      qpos := by
                    intro heq
                    have : getPieceAt st.pieces t = some q := by
                      rw [show (⟨t, piece.color, piece.isKing, piece.hasMoved⟩ : Piece).pos =
                        t from rfl] at heq
                      rw [heq]
                      exact hqat
                    rw [hT] at this
                    cases this
                  rcases removePiece_set_spec st st.selectedPieceIndex.toNat piece
                      ⟨t, piece.color, piece.isKing, piece.hasMoved⟩ q qpos hpiece hqat hqpos
                      hqcol rfl hapos with ⟨k, hklen, hki, hkq, hrm⟩
                  rw [show ({ piece with pos := t } : Piece) =
                    ⟨t, piece.color, piece.isKing, piece.hasMoved⟩ from rfl] at hstJ
                  rw [hrm] at hstJ
                  rw [hresJ, show [qpos] = [q.pos] by rw [hqpos]] at h
                  rcases postProcess_jump_spec st stJ st.selectedPieceIndex.toNat k piece
                      ⟨t, piece.color, piece.isKing, piece.hasMoved⟩ q t res st' hselSt hpiece
                      hklen hki rfl (by rw [hstJ]) (by rw [hstJ]) (by rw [hstJ])
                      (by rw [hstJ]) (by rw [hstJ]) h with
                    ⟨final, hfpos, hfcol, hfmoved, hfking, hr2s, hr2c, hpieces', hstart', hbot',
                      hbranch⟩
                  rw [← hqpos] at hbetween
                  exact ⟨st.selectedPieceIndex.toNat, piece, final, hselSt, hpiece, hturn2, hT,
                    hmust2, hD, h1le, hfpos, hfcol, hfmoved, hfking, hstart', hbot',
                    Or.inr ⟨q, k, hr2c, hkq, hklen, hki, hqcol, hbetween, hpieces', hbranch⟩⟩
              · split at h
                · rcases hpr : executeKingMove st st.selectedPieceIndex.toNat piece t with
                    ⟨resK, stK⟩
                  rw [hpr] at h
                  dsimp only at h
                  rcases executeKingMove_spec _ _ _ _ _ _ hpr with
                    ⟨hfs, _⟩ | ⟨hresK, hstK, hnj⟩
                  · rw [postProcess_failure _ _ hfs] at h
                    cases h
                    rw [hfs] at hs
                    cases hs
                  · rw [hresK] at h
                    rw [show ({ piece with pos := t } : Piece) =
                      ⟨t, piece.color, piece.isKing, piece.hasMoved⟩ from rfl] at hstK
                    rcases postProcess_simple_spec st stK st.selectedPieceIndex.toNat piece
                        ⟨t, piece.color, piece.isKing, piece.hasMoved⟩ t res st' hselSt hpiece
                        rfl (by rw [hstK]) (by rw [hstK]) (by rw [hstK]) (by rw [hstK])
                        (by rw [hstK]) h with
                      ⟨final, hfpos, hfcol, hfmoved, hfking, hr2s, hr2c, hpieces', hstart',
                        hbot', hcur', hsel', hmc'⟩
                    exact ⟨st.selectedPieceIndex.toNat, piece, final, hselSt, hpiece, hturn2, hT,
                      hmust2, hD, h1le, hfpos, hfcol, hfmoved, hfking, hstart', hbot',
                      Or.inl ⟨hr2c, hnj, hpieces', hcur', hsel', hmc'⟩⟩
                · cases h
                  cases hs
            · rename_i hnotbig
              split at h
              · rename_i hsq2
                rcases hpr : executeRegularMove st st.selectedPieceIndex.toNat piece t 1 with
                  ⟨resR, stR⟩
                rw [hpr] at h
                dsimp only at h
                rcases executeRegularMove_spec _ _ _ _ _ _ hpr with
                  ⟨hfs, _⟩ | ⟨hresR, hstR, hnj, hdx1, hdz1⟩
                · rw [postProcess_failure _ _ hfs] at h
                  cases h
                  rw [hfs] at hs
                  cases hs
                · rw [hresR] at h
                  rw [show ({ piece with pos := t } : Piece) =
                    ⟨t, piece.color, piece.isKing, piece.hasMoved⟩ from rfl] at hstR
                  rcases postProcess_simple_spec st stR st.selectedPieceIndex.toNat piece
                      ⟨t, piece.color, piece.isKing, piece.hasMoved⟩ t res st' hselSt hpiece
                      rfl (by rw [hstR]) (by rw [hstR]) (by rw [hstR]) (by rw [hstR])
                      (by rw [hstR]) h with
                    ⟨final, hfpos, hfcol, hfmoved, hfking, hr2s, hr2c, hpieces', hstart',
                      hbot', hcur', hsel', hmc'⟩
                  exact ⟨st.selectedPieceIndex.toNat, piece, final, hselSt, hpiece, hturn2, hT,
                    hmust2, by rw [hdx1, hdz1], by rw [hdx1], hfpos, hfcol, hfmoved, hfking,
                    hstart', hbot', Or.inl ⟨hr2c, hnj, hpieces', hcur', hsel', hmc'⟩⟩
              · cases h
                cases hs

theorem movePiece_must_continue_reject (st : GameState) (t : GridPos) (res : MoveResult)
    (st2 : GameState) (pj : Piece)
    (hsel : 0 ≤ st.selectedPieceIndex)
    (hp : st.pieces[st.selectedPieceIndex.toNat]? = some pj)
    (hmc : st.mustCaptureFrom ≠ [])
    (hnot : st.selectedPieceIndex.toNat ∉ st.mustCaptureFrom)
    (h : movePiece st t = some (res, st2)) :
    res.success = false := by
  unfold movePiece at h
  rw [if_neg (by omega)] at h
  rw [hp] at h
  dsimp only at h
  split at h
  · cases h
    rfl
  · have hcond : (!st.mustCaptureFrom.isEmpty &&
        !st.mustCaptureFrom.contains st.selectedPieceIndex.toNat) = true := by
      rw [Bool.and_eq_true]
      constructor
      · simpa [List.isEmpty_iff] using hmc
      · simpa using hnot
    rw [if_pos hcond] at h
    cases h
    rfl

/-- C5: a rejected movePiece call (success = false) leaves the game state
exactly unchanged and carries a message naming the violated rule. -/
theorem C5_atomic_rejection (st : GameState) (t : GridPos) (res : MoveResult) (st' : GameState)
    (h : movePiece st t = some (res, st'))
    (hfail : res.success = false) :
    st' = st ∧ ∃ m, res.message = some m := by
  rcases movePiece_failure_spec st t res st' h hfail with ⟨h1, _, h2⟩
  exact ⟨h1, h2⟩

theorem C5_witness :
    (⟨[], -1, Color.white, Color.white, [], Color.black⟩ : GameState) =
      ⟨[], -1, Color.white, Color.white, [], Color.black⟩ ∧
    ∃ m, (⟨false, none, none, some Msg.noPieceSelected⟩ : MoveResult).message = some m :=
  C5_atomic_rejection ⟨[], -1, Color.white, Color.white, [], Color.black⟩ ⟨0, 0⟩
    ⟨false, none, none, some Msg.noPieceSelected⟩
    ⟨[], -1, Color.white, Color.white, [], Color.black⟩ (by decide) (by decide)

/-- C1: when any piece of the side to move has a legal capture available,
every successful movePiece call by that side is a capture; equivalently every
proposed non-capture move (a Man single step or a King long-range slide) is
rejected with success = false. -/
theorem C1_forced_capture (st : GameState) (t : GridPos) (res : MoveResult) (st' : GameState)
    (hjumps : hasAvailableJumps st.pieces st.currentPlayer = true)
    (h : movePiece st t = some (res, st'))
    (hs : res.success = true) :
    ∃ c, res.captured = some [c] := by
  rcases movePiece_success_spec st t res st' h hs with
    ⟨i, piece, final, _, _, hcol, _, _, _, _, _, _, _, _, _, _, hbr⟩
  rcases hbr with ⟨_, hnoj, _⟩ | ⟨q, k, hcap, _⟩
  · rw [hcol, hjumps] at hnoj
    cases hnoj
  · exact ⟨q.pos, hcap⟩

theorem C1_witness :
    ∃ c, ({ success := true, captured := some [⟨3, 3⟩], becameKing := none, message := none } :
      MoveResult).captured = some [c] :=
  C1_forced_capture
    ⟨[⟨⟨2, 2⟩, Color.black, false, false⟩, ⟨⟨3, 3⟩, Color.white, false, false⟩],
      0, Color.black, Color.white, [], Color.black⟩
    ⟨4, 4⟩
    { success := true, captured := some [⟨3, 3⟩], becameKing := none, message := none }
    ⟨[⟨⟨4, 4⟩, Color.black, false, true⟩], -1, Color.white, Color.white, [], Color.black⟩
    (by decide) (by decide) (by decide)

/-- C2: after a successful capture that leaves the piece now standing on the
destination square with a further legal capture, the side to move is
unchanged, mustCaptureFrom designates exactly the moved piece (which sits at
the destination), and a movePiece call with any other piece selected fails. -/
theorem C2_multi_jump (st : GameState) (t : GridPos) (res : MoveResult) (st' : GameState)
    (h : movePiece st t = some (res, st'))
    (hs : res.success = true)
    (hcap : capturedNonempty res = true)
    (hcont : ∀ p' ∈ st'.pieces, p'.pos = t → canCapture st'.pieces p' = true) :
    st'.currentPlayer = st.currentPlayer ∧
    0 ≤ st'.selectedPieceIndex ∧
    st'.mustCaptureFrom = [st'.selectedPieceIndex.toNat] ∧
    (∃ p', st'.pieces[st'.selectedPieceIndex.toNat]? = some p' ∧ p'.pos = t) ∧
    (∀ j : Nat, j < st'.pieces.length → (j : Int) ≠ st'.selectedPieceIndex →
      ∀ (t' : GridPos) (res2 : MoveResult) (st2 : GameState),
        movePiece { st' with selectedPieceIndex := (j : Int) } t' = some (res2, st2) →
        res2.success = false) := by
  rcases movePiece_success_spec st t res st' h hs with
    ⟨i, piece, final, hselSt, hpiece, hcol, hT, hmust, hD, h1le, hfpos, hfcol, hfmoved, hfking,
      hstart, hbot, hbr⟩
  have hilen : i < st.pieces.length := by
    rcases List.getElem?_eq_some_iff.mp hpiece with ⟨hw, _⟩
    exact hw
  rcases hbr with ⟨hnone, _⟩ | ⟨q, k, hcapres, hkq, hklen, hki, hqcol, _, hpieces', hbr2⟩
  · unfold capturedNonempty at hcap
    rw [hnone] at hcap
    simp at hcap
  · have hi2len : (if k < i then i - 1 else i) < (st.pieces.eraseIdx k).length := by
      rw [List.length_eraseIdx_of_lt hklen]
      by_cases hc : k < i
      · rw [if_pos hc]; omega
      · rw [if_neg hc]; omega
    have hfinmem : ((st.pieces.eraseIdx k).set (if k < i then i - 1 else i)
          final)[if k < i then i - 1 else i]? = some final := by
      rw [List.getElem?_set, if_pos rfl, if_pos hi2len]
    rcases hbr2 with ⟨hcur, hsel', hmc', hcc⟩ | ⟨hcur, hsel', hmc', hccf⟩
    · have hselN : st'.selectedPieceIndex.toNat = (if k < i then i - 1 else i) := by
        rw [hsel']
        omega
      refine ⟨hcur, by rw [hsel']; omega, by rw [hmc', hselN], ?_, ?_⟩
      · refine ⟨final, ?_, hfpos⟩
        rw [hselN, hpieces']
        exact hfinmem
      · intro j hjlen hjne t' res2 st2 hmv
        have hjne2 : j ≠ (if k < i then i - 1 else i) := by
          intro hcon
          apply hjne
          rw [hsel', hcon]
        apply movePiece_must_continue_reject _ t' res2 st2 (st'.pieces[j]) ?_ ?_ ?_ ?_ hmv
        · show (0 : Int) ≤ (j : Int)
          omega
        · show st'.pieces[((j : Int)).toNat]? = some st'.pieces[j]
          rw [show ((j : Int)).toNat = j from rfl]
          exact List.getElem?_eq_getElem hjlen
        · show st'.mustCaptureFrom ≠ []
          rw [hmc']
          intro hcon
          cases hcon
        · show ((j : Int)).toNat ∉ st'.mustCaptureFrom
          rw [show ((j : Int)).toNat = j from rfl, hmc']
          simpa using hjne2
    · exfalso
      have hfinmem2 : final ∈ st'.pieces := by
        rw [hpieces']
        exact mem_of_getElem?_some hfinmem
      have := hcont final hfinmem2 hfpos
      rw [hccf] at this
      cases this

/-- C10: a successful movePiece call either captures nothing and preserves
the number of pieces, or reports exactly one captured square, removes exactly
one piece, and that square holds the only piece strictly between origin and
destination (a hop over two or more pieces is rejected). -/
theorem C10_single_capture (st : GameState) (t : GridPos) (res : MoveResult) (st' : GameState)
    (h : movePiece st t = some (res, st'))
    (hs : res.success = true) :
    (res.captured = none ∧ st'.pieces.length = st.pieces.length) ∨
    (∃ (c : GridPos) (i : Nat) (piece : Piece) (m : Nat),
      res.captured = some [c] ∧
      st'.pieces.length + 1 = st.pieces.length ∧
      st.selectedPieceIndex = (i : Int) ∧ st.pieces[i]? = some piece ∧
      m ∈ List.range' 1 ((t.x - piece.pos.x).natAbs - 1) ∧
      c = stepPos piece.pos ⟨sgn (t.x - piece.pos.x), sgn (t.z - piece.pos.z)⟩ m ∧
      (getPieceAt st.pieces c).isSome = true ∧
      (∀ j ∈ List.range' 1 ((t.x - piece.pos.x).natAbs - 1), j ≠ m →
        getPieceAt st.pieces
          (stepPos piece.pos ⟨sgn (t.x - piece.pos.x), sgn (t.z - piece.pos.z)⟩ j) = none)) := by
  rcases movePiece_success_spec st t res st' h hs with
    ⟨i, piece, final, hselSt, hpiece, hcol, hT, hmust, hD, h1le, hfpos, hfcol, hfmoved, hfking,
      hstart, hbot, hbr⟩
  rcases hbr with ⟨hnone, _, hpieces', _⟩ | ⟨q, k, hcapres, hkq, hklen, hki, hqcol,
    ⟨m, hm, hqpos, hrest⟩, hpieces', _⟩
  · left
    refine ⟨hnone, ?_⟩
    rw [hpieces', List.length_set]
  · right
    have hqmem : q ∈ st.pieces := by
      rcases List.getElem?_eq_some_iff.mp hkq with ⟨hw, hv⟩
      exact hv ▸ List.getElem_mem hw
    refine ⟨q.pos, i, piece, m, hcapres, ?_, hselSt, hpiece, hm, hqpos, ?_, hrest⟩
    · rw [hpieces', List.length_set, List.length_eraseIdx_of_lt hklen]
      omega
    · rw [show getPieceAt st.pieces q.pos = st.pieces.find? (fun r => r.pos == q.pos) from rfl]
      rw [List.find?_isSome]
      exact ⟨q, hqmem, by simp⟩

def stC2 : GameState :=
  ⟨[⟨⟨0, 0⟩, Color.black, false, false⟩, ⟨⟨1, 1⟩, Color.white, false, false⟩,
    ⟨⟨3, 3⟩, Color.white, false, false⟩, ⟨⟨7, 7⟩, Color.black, false, false⟩],
    0, Color.black, Color.white, [], Color.black⟩

def stC2' : GameState :=
  ⟨[⟨⟨2, 2⟩, Color.black, false, true⟩, ⟨⟨3, 3⟩, Color.white, false, false⟩,
    ⟨⟨7, 7⟩, Color.black, false, false⟩],
    0, Color.black, Color.white, [0], Color.black⟩

theorem C2_witness :
    stC2'.currentPlayer = stC2.currentPlayer ∧
    0 ≤ stC2'.selectedPieceIndex ∧
    stC2'.mustCaptureFrom = [stC2'.selectedPieceIndex.toNat] ∧
    (∃ p', stC2'.pieces[stC2'.selectedPieceIndex.toNat]? = some p' ∧ p'.pos = ⟨2, 2⟩) ∧
    (∀ j : Nat, j < stC2'.pieces.length → (j : Int) ≠ stC2'.selectedPieceIndex →
      ∀ (t' : GridPos) (res2 : MoveResult) (st2 : GameState),
        movePiece { stC2' with selectedPieceIndex := (j : Int) } t' = some (res2, st2) →
        res2.success = false) :=
  C2_multi_jump stC2 ⟨2, 2⟩ ⟨true, some [⟨1, 1⟩], none, none⟩ stC2'
    (by decide) (by decide) (by decide) (by decide)

def stC10 : GameState :=
  ⟨[⟨⟨2, 2⟩, Color.black, false, false⟩, ⟨⟨3, 3⟩, Color.white, false, false⟩],
    0, Color.black, Color.white, [], Color.black⟩

def stC10' : GameState :=
  ⟨[⟨⟨4, 4⟩, Color.black, false, true⟩], -1, Color.white, Color.white, [], Color.black⟩

theorem C10_witness :
    ((⟨true, some [⟨3, 3⟩], none, none⟩ : MoveResult).captured = none ∧
      stC10'.pieces.length = stC10.pieces.length) ∨
    (∃ (c : GridPos) (i : Nat) (piece : Piece) (m : Nat),
      (⟨true, some [⟨3, 3⟩], none, none⟩ : MoveResult).captured = some [c] ∧
      stC10'.pieces.length + 1 = stC10.pieces.length ∧
      stC10.selectedPieceIndex = (i : Int) ∧ stC10.pieces[i]? = some piece ∧
      m ∈ List.range' 1 (((4 : Int) - piece.pos.x).natAbs - 1) ∧
      c = stepPos piece.pos ⟨sgn ((4 : Int) - piece.pos.x), sgn ((4 : Int) - piece.pos.z)⟩ m ∧
      (getPieceAt stC10.pieces c).isSome = true ∧
      (∀ j ∈ List.range' 1 (((4 : Int) - piece.pos.x).natAbs - 1), j ≠ m →
        getPieceAt stC10.pieces
          (stepPos piece.pos ⟨sgn ((4 : Int) - piece.pos.x),
            sgn ((4 : Int) - piece.pos.z)⟩ j) = none)) :=
  C10_single_capture stC10 ⟨4, 4⟩ ⟨true, some [⟨3, 3⟩], none, none⟩ stC10'
    (by decide) (by decide)

/-- The public operations of the engine boundary that mutate state. -/
inductive Op where
  | move (t : GridPos)
  | skip
  | select (i : Nat)
  | deselect
deriving DecidableEq, Repr

/-- Apply one public operation; none where movePiece would crash. -/
def applyOp (st : GameState) : Op → Option GameState
  | .move t => (movePiece st t).map (fun pr => pr.2)
  | .skip => some (skipTurn st)
  | .select i => some (selectPieceByIndex st i)
  | .deselect => some (deselectPiece st)

/-- Run a sequence of public operations. -/
def runOps : GameState → List Op → Option GameState
  | st, [] => some st
  | st, op :: ops =>
    match applyOp st op with
    | none => none
    | some st1 => runOps st1 ops

theorem skipTurn_pieces (st : GameState) : (skipTurn st).pieces = st.pieces := rfl

theorem selectPieceByIndex_pieces (st : GameState) (i : Nat) :
    (selectPieceByIndex st i).pieces = st.pieces := by
  unfold selectPieceByIndex
  split <;> rfl

theorem deselectPiece_pieces (st : GameState) : (deselectPiece st).pieces = st.pieces := by
  unfold deselectPiece
  split <;> rfl

theorem movePiece_preserves_board (st : GameState) (t : GridPos) (res : MoveResult)
    (st' : GameState)
    (h : movePiece st t = some (res, st'))
    (hOn : isOnBoard t = true)
    (hInv : ∀ p ∈ st.pieces, isOnBoard p.pos = true ∧ (p.pos.x + p.pos.z) % 2 = 1) :
    ∀ p ∈ st'.pieces, isOnBoard p.pos = true ∧ (p.pos.x + p.pos.z) % 2 = 1 := by
  cases hsucc : res.success
  · rcases movePiece_failure_spec st t res st' h hsucc with ⟨heq, _⟩
    rw [heq]
    exact hInv
  · rcases movePiece_success_spec st t res st' h hsucc with
      ⟨i, piece, final, hselSt, hpiece, _, _, _, hD, _, hfpos, _, _, _, _, _, hbr⟩
    have hpmem : piece ∈ st.pieces := mem_of_getElem?_some hpiece
    have hparity : (t.x + t.z) % 2 = 1 := by
      have hpp := (hInv piece hpmem).2
      rcases Int.natAbs_eq_natAbs_iff.mp hD with hc | hc
      · omega
      · omega
    have hfinal : isOnBoard final.pos = true ∧ (final.pos.x + final.pos.z) % 2 = 1 := by
      rw [hfpos]
      exact ⟨hOn, hparity⟩
    rcases hbr with ⟨_, _, hpieces', _⟩ | ⟨q, k, _, _, _, _, _, _, hpieces', _⟩
    · intro p hp
      rw [hpieces'] at hp
      rcases List.mem_or_eq_of_mem_set hp with hp | rfl
      · exact hInv p hp
      · exact hfinal
    · intro p hp
      rw [hpieces'] at hp
      rcases List.mem_or_eq_of_mem_set hp with hp | rfl
      · exact hInv p ((List.eraseIdx_sublist st.pieces k).subset hp)
      · exact hfinal

theorem runOps_preserves_board (ops : List Op) : ∀ (st st' : GameState),
    (∀ t, Op.move t ∈ ops → isOnBoard t = true) →
    runOps st ops = some st' →
    (∀ p ∈ st.pieces, isOnBoard p.pos = true ∧ (p.pos.x + p.pos.z) % 2 = 1) →
    ∀ p ∈ st'.pieces, isOnBoard p.pos = true ∧ (p.pos.x + p.pos.z) % 2 = 1 := by
  induction ops with
  | nil =>
    intro st st' _ h hI
    rw [show runOps st [] = some st from rfl] at h
    rw [← Option.some.inj h]
    exact hI
  | cons op ops ih =>
    intro st st' hOn h hI
    rw [runOps] at h
    rcases hap : applyOp st op with _ | st1
    · rw [hap] at h
      cases h
    · rw [hap] at h
      refine ih st1 st' (fun t ht => hOn t (List.mem_cons_of_mem _ ht)) h ?_
      cases op with
      | move t =>
        rcases Option.map_eq_some'.mp hap with ⟨⟨res1, stm⟩, hmv, hst1⟩
        rw [show ((res1, stm) : MoveResult × GameState).2 = stm from rfl] at hst1
        rw [← hst1]
        exact movePiece_preserves_board st t res1 stm hmv
          (hOn t (List.mem_cons_self _ _)) hI
      | skip =>
        have h1 : skipTurn st = st1 := Option.some.inj hap
        intro p hp
        rw [← h1, skipTurn_pieces] at hp
        exact hI p hp
      | select idx =>
        have h1 : selectPieceByIndex st idx = st1 := Option.some.inj hap
        intro p hp
        rw [← h1, selectPieceByIndex_pieces] at hp
        exact hI p hp
      | deselect =>
        have h1 : deselectPiece st = st1 := Option.some.inj hap
        intro p hp
        rw [← h1, deselectPiece_pieces] at hp
        exact hI p hp

/-- C4 (amended): starting from initializeBoard, along any sequence of public
operations in which every movePiece target lies on the board, every live
piece stays within board bounds and on a playable dark square ((x + z) odd in
shifted coordinates).  The on-board proviso on requested targets is needed:
movePiece itself never checks the target against the board bounds. -/
theorem C4_board_invariant (st0 : GameState) (ops : List Op) (st' : GameState)
    (hOn : ∀ t, Op.move t ∈ ops → isOnBoard t = true)
    (h : runOps (initializeBoard st0) ops = some st') :
    ∀ p ∈ st'.pieces, isOnBoard p.pos = true ∧ (p.pos.x + p.pos.z) % 2 = 1 := by
  refine runOps_preserves_board ops (initializeBoard st0) st' hOn h ?_
  rw [show (initializeBoard st0).pieces = initPieces from rfl]
  decide

def pC4 : Piece := ⟨⟨1, 0⟩, Color.black, false, false⟩

theorem C4_witness :
    isOnBoard pC4.pos = true ∧ (pC4.pos.x + pC4.pos.z) % 2 = 1 :=
  C4_board_invariant ⟨[], -1, Color.white, Color.white, [], Color.black⟩ []
    (initializeBoard ⟨[], -1, Color.white, Color.white, [], Color.black⟩)
    (fun t ht => absurd ht (List.not_mem_nil _)) rfl pC4 (by decide)

/-- C4 (counterexample to the claim as stated): from the initial board, the
public operations select piece 24 (the white man at (9,6)) and movePiece to
(10,5) succeed, leaving a piece outside the board bounds: movePiece performs
no bounds check on the requested target. -/
theorem C4_counterexample :
    ((runOps (initializeBoard ⟨[], -1, Color.white, Color.white, [], Color.black⟩)
        [Op.select 24, Op.move ⟨10, 5⟩]).map
      (fun s => s.pieces.all (fun p => isOnBoard p.pos))) = some false := by decide

/-- The correspondence a single public operation induces between the pieces
of its input and output states: an injective index map under which every
piece of the output descends from a piece of the input of the same color
with King status only grown, and — the frame condition — every index other
than (at most) one moved index carries its piece over with the whole record
(position, color, King status, hasMoved) unchanged.  Board positions are
unique, so this is the program ACTUAL correspondence: only the moved piece
record may differ. -/
def StepLineage (st st1 : GameState) (f : Nat → Nat) : Prop :=
  Function.Injective f ∧ ∃ moved : Nat,
    ∀ (j : Nat) (p' : Piece), st1.pieces[j]? = some p' →
      ∃ p : Piece, st.pieces[f j]? = some p ∧ p.color = p'.color ∧
        (p.isKing = true → p'.isKing = true) ∧ (j ≠ moved → p' = p)

/-- The composite correspondence along a sequence of public operations: one
StepLineage map per operation, through the actual intermediate states, the
composite being their composition in order. -/
def ChainLineage : GameState → List Op → GameState → (Nat → Nat) → Prop
  | st, [], st', f => st' = st ∧ f = id
  | st, op :: ops, st', f =>
      ∃ st1 g1 g2, applyOp st op = some st1 ∧ StepLineage st st1 g1 ∧
        ChainLineage st1 ops st' g2 ∧ f = g1 ∘ g2

theorem movePiece_lineage (st : GameState) (t : GridPos) (res : MoveResult) (st' : GameState)
    (h : movePiece st t = some (res, st')) :
    ∃ f : Nat → Nat, Function.Injective f ∧ ∃ moved : Nat,
      ∀ (j : Nat) (p' : Piece), st'.pieces[j]? = some p' →
        ∃ p : Piece, st.pieces[f j]? = some p ∧ p.color = p'.color ∧
          (p.isKing = true → p'.isKing = true) ∧ (j ≠ moved → p' = p) := by
  cases hsucc : res.success
  · rcases movePiece_failure_spec st t res st' h hsucc with ⟨heq, _⟩
    refine ⟨id, fun a b hab => hab, 0, ?_⟩
    intro j p' hp'
    rw [heq] at hp'
    exact ⟨p', hp', rfl, fun hk => hk, fun _ => rfl⟩
  · rcases movePiece_success_spec st t res st' h hsucc with
      ⟨i, piece, final, hselSt, hpiece, _, _, _, _, _, _, hfcol, _, hfking, _, _, hbr⟩
    have hilen : i < st.pieces.length := by
      rcases List.getElem?_eq_some_iff.mp hpiece with ⟨hw, _⟩
      exact hw
    rcases hbr with ⟨_, _, hpieces', _⟩ | ⟨q, k, _, _, hklen, hki, _, _, hpieces', _⟩
    · refine ⟨id, fun a b hab => hab, i, ?_⟩
      intro j p' hp'
      rw [hpieces'] at hp'
      by_cases hji : j = i
      · subst hji
        rw [List.getElem?_set, if_pos rfl, if_pos hilen] at hp'
        have hpf : final = p' := Option.some.inj hp'
        refine ⟨piece, hpiece, ?_, ?_, ?_⟩
        · rw [← hpf, hfcol]
        · intro hk
          rw [← hpf, hfking, hk]
          rfl
        · intro hne
          exact absurd rfl hne
      · rw [List.getElem?_set, if_neg (fun hcon => hji hcon.symm)] at hp'
        exact ⟨p', hp', rfl, fun hk => hk, fun _ => rfl⟩
    · have hshift : ∀ j, j ≠ (if k < i then i - 1 else i) → (if j < k then j else j + 1) ≠ i := by
        intro j hj
        by_cases hc : k < i
        · rw [if_pos hc] at hj
          by_cases hjk : j < k
          · rw [if_pos hjk]; omega
          · rw [if_neg hjk]; omega
        · rw [if_neg hc] at hj
          by_cases hjk : j < k
          · rw [if_pos hjk]; omega
          · rw [if_neg hjk]; omega
      refine ⟨fun j => if j = (if k < i then i - 1 else i) then i
        else (if j < k then j else j + 1), ?_, (if k < i then i - 1 else i), ?_⟩
      · intro a b hab
        dsimp only at hab
        by_cases ha : a = (if k < i then i - 1 else i) <;>
          by_cases hb : b = (if k < i then i - 1 else i)
        · rw [ha, hb]
        · rw [if_pos ha, if_neg hb] at hab
          exact absurd hab.symm (hshift b hb)
        · rw [if_neg ha, if_pos hb] at hab
          exact absurd hab (hshift a ha)
        · rw [if_neg ha, if_neg hb] at hab
          by_cases hak : a < k <;> by_cases hbk : b < k
          · rw [if_pos hak, if_pos hbk] at hab; exact hab
          · rw [if_pos hak, if_neg hbk] at hab; omega
          · rw [if_neg hak, if_pos hbk] at hab; omega
          · rw [if_neg hak, if_neg hbk] at hab; omega
      · intro j p' hp'
        dsimp only
        have hi2len : (if k < i then i - 1 else i) < (st.pieces.eraseIdx k).length := by
          rw [List.length_eraseIdx_of_lt hklen]
          by_cases hc : k < i
          · rw [if_pos hc]; omega
          · rw [if_neg hc]; omega
        rw [hpieces'] at hp'
        by_cases hji : j = (if k < i then i - 1 else i)
        · rw [if_pos hji]
          rw [hji, List.getElem?_set, if_pos rfl, if_pos hi2len] at hp'
          have hpf : final = p' := Option.some.inj hp'
          refine ⟨piece, hpiece, ?_, ?_, ?_⟩
          · rw [← hpf, hfcol]
          · intro hk
            rw [← hpf, hfking, hk]
            rfl
          · intro hne
            exact absurd hji hne
        · rw [if_neg hji]
          rw [List.getElem?_set, if_neg (fun hcon => hji hcon.symm),
            List.getElem?_eraseIdx] at hp'
          by_cases hjk : j < k
          · rw [if_pos hjk] at hp' ⊢
            exact ⟨p', hp', rfl, fun hk => hk, fun _ => rfl⟩
          · rw [if_neg hjk] at hp' ⊢
            exact ⟨p', hp', rfl, fun hk => hk, fun _ => rfl⟩

theorem applyOp_lineage (st : GameState) (op : Op) (st1 : GameState)
    (h : applyOp st op = some st1) :
    ∃ f : Nat → Nat, StepLineage st st1 f := by
  cases op with
  | move t =>
    rcases Option.map_eq_some'.mp h with ⟨⟨res1, stm⟩, hmv, hst1⟩
    rw [show ((res1, stm) : MoveResult × GameState).2 = stm from rfl] at hst1
    rw [← hst1]
    rcases movePiece_lineage st t res1 stm hmv with ⟨f, hfi, moved, hf⟩
    exact ⟨f, hfi, moved, hf⟩
  | skip =>
    have h1 : skipTurn st = st1 := Option.some.inj h
    refine ⟨id, fun a b hab => hab, 0, ?_⟩
    intro j p' hp'
    rw [← h1, skipTurn_pieces] at hp'
    exact ⟨p', hp', rfl, fun hk => hk, fun _ => rfl⟩
  | select idx =>
    have h1 : selectPieceByIndex st idx = st1 := Option.some.inj h
    refine ⟨id, fun a b hab => hab, 0, ?_⟩
    intro j p' hp'
    rw [← h1, selectPieceByIndex_pieces] at hp'
    exact ⟨p', hp', rfl, fun hk => hk, fun _ => rfl⟩
  | deselect =>
    have h1 : deselectPiece st = st1 := Option.some.inj h
    refine ⟨id, fun a b hab => hab, 0, ?_⟩
    intro j p' hp'
    rw [← h1, deselectPiece_pieces] at hp'
    exact ⟨p', hp', rfl, fun hk => hk, fun _ => rfl⟩

/-- C6: promotion is monotonic.  Along any sequence of public operations
(movePiece and skipTurn included) the program carries pieces through the
ChainLineage correspondence — per operation an injective index map under
which every piece except the single moved one keeps its whole record, so it
is the actual piece identity — and along its composite every piece of the
final state descends from a piece of the initial state of the same color
whose King status can only have grown: once a piece is a King, no sequence
of calls ever returns that piece to a Man. -/
theorem C6_promotion_monotonic (st : GameState) (ops : List Op) (st' : GameState)
    (h : runOps st ops = some st') :
    ∃ f : Nat → Nat, ChainLineage st ops st' f ∧ Function.Injective f ∧
      ∀ (j : Nat) (p' : Piece), st'.pieces[j]? = some p' →
        ∃ p : Piece, st.pieces[f j]? = some p ∧ p.color = p'.color ∧
          (p.isKing = true → p'.isKing = true) := by
  induction ops generalizing st with
  | nil =>
    rw [show runOps st [] = some st from rfl] at h
    rw [← Option.some.inj h]
    exact ⟨id, ⟨rfl, rfl⟩, fun a b hab => hab,
      fun j p' hp' => ⟨p', hp', rfl, fun hk => hk⟩⟩
  | cons op ops ih =>
    rw [runOps] at h
    rcases hap : applyOp st op with _ | st1
    · rw [hap] at h
      cases h
    · rw [hap] at h
      rcases ih st1 h with ⟨g2, hchain2, hg2i, hg2⟩
      rcases applyOp_lineage st op st1 hap with ⟨g1, hstep⟩
      rcases hstep with ⟨hg1i, moved, hg1⟩
      refine ⟨g1 ∘ g2, ⟨st1, g1, g2, hap, ⟨hg1i, moved, hg1⟩, hchain2, rfl⟩,
        hg1i.comp hg2i, ?_⟩
      intro j p' hp'
      rcases hg2 j p' hp' with ⟨p1, hp1, hcol1, hking1⟩
      rcases hg1 (g2 j) p1 hp1 with ⟨p0, hp0, hcol0, hking0, _⟩
      exact ⟨p0, hp0, by rw [hcol0, hcol1], fun hk => hking1 (hking0 hk)⟩

def stC6 : GameState :=
  ⟨[⟨⟨0, 0⟩, Color.black, true, false⟩], 0, Color.black, Color.white, [], Color.black⟩

def stC6' : GameState :=
  ⟨[⟨⟨0, 0⟩, Color.black, true, false⟩], -1, Color.white, Color.white, [], Color.black⟩

theorem C6_witness :
    ∃ f : Nat → Nat, ChainLineage stC6 [Op.skip] stC6' f ∧ Function.Injective f ∧
      ∀ (j : Nat) (p' : Piece), stC6'.pieces[j]? = some p' →
        ∃ p : Piece, stC6.pieces[f j]? = some p ∧ p.color = p'.color ∧
          (p.isKing = true → p'.isKing = true) :=
  C6_promotion_monotonic stC6 [Op.skip] stC6' (by decide)

/-- C7 (amended): checkWinner returns White exactly when Black has no
pieces; it returns Black exactly when White has no pieces and Black still has
at least one; it returns none exactly when both sides have pieces.  When both
counts are zero it returns White, not Black, because the Black-count test
runs first. -/
theorem C7_checkWinner (pieces : List Piece) :
    (checkWinner pieces = some Color.white ↔
      (pieces.filter (fun p => p.color == Color.black)).length = 0) ∧
    (checkWinner pieces = some Color.black ↔
      ((pieces.filter (fun p => p.color == Color.white)).length = 0 ∧
       (pieces.filter (fun p => p.color == Color.black)).length ≠ 0)) ∧
    (checkWinner pieces = none ↔
      ((pieces.filter (fun p => p.color == Color.black)).length ≠ 0 ∧
       (pieces.filter (fun p => p.color == Color.white)).length ≠ 0)) := by
  unfold checkWinner
  dsimp only
  split_ifs with h1 h2 <;> simp_all

/-- C7 (counterexample to the claim as stated): on the empty board the White
count is zero, yet checkWinner returns White (the Black test runs first),
not Black — refuting that checkWinner returns Black exactly when the count
of White pieces is zero. -/
theorem C7_counterexample :
    (([] : List Piece).filter (fun p => p.color == Color.white)).length = 0 ∧
    checkWinner [] = some Color.white ∧
    checkWinner [] ≠ some Color.black := by decide

/-- C9: initializeBoard resets the piece registry, selection, bot color and
both player fields, but the starting side is unconditionally White — calling
it again still yields White, it never alternates — and the must-capture list
is left untouched.  This contradicts the repository documentation
(IMPLEMENTATION_NOTES, section Color Switching on Game Restart), which says
the starting player alternates between white and black on initializeBoard. -/
theorem C9_initializeBoard_no_alternation (st : GameState) :
    (initializeBoard st).startingPlayer = Color.white ∧
    (initializeBoard (initializeBoard st)).startingPlayer = Color.white ∧
    (initializeBoard st).currentPlayer = Color.white ∧
    (initializeBoard st).botColor = Color.black ∧
    (initializeBoard st).pieces = initPieces ∧
    (initializeBoard st).selectedPieceIndex = -1 ∧
    (initializeBoard st).mustCaptureFrom = st.mustCaptureFrom :=
  ⟨rfl, rfl, rfl, rfl, rfl, rfl, rfl⟩

/-- Number of pieces not yet captured in the running capture chain: the
measure that bounds the recursion depth of the jump search. -/
def uncapturedCount (pieces : List Piece) (captured : List GridPos) : Nat :=
  (pieces.filter (fun q => !(posInList q.pos captured))).length

theorem flatMap_congr {α β : Type} {l : List α} {f g : α → List β}
    (h : ∀ a ∈ l, f a = g a) : l.flatMap f = l.flatMap g := by
  induction l with
  | nil => rfl
  | cons x xs ih =>
    rw [List.flatMap_cons, List.flatMap_cons, h x (List.mem_cons_self x xs),
      ih (fun a ha => h a (List.mem_cons_of_mem x ha))]

theorem uncapturedCount_pos (pieces : List Piece) (cap : List GridPos) (q : Piece)
    (hq : q ∈ pieces) (hnot : posInList q.pos cap = false) :
    1 ≤ uncapturedCount pieces cap := by
  have hmem : q ∈ pieces.filter (fun r => !(posInList r.pos cap)) :=
    List.mem_filter.mpr ⟨hq, by simp [hnot]⟩
  exact List.length_pos_of_mem hmem

theorem uncapturedCount_lt (pieces : List Piece) (cap : List GridPos) (q : Piece)
    (hq : q ∈ pieces) (hnot : posInList q.pos cap = false) :
    uncapturedCount pieces (cap ++ [q.pos]) < uncapturedCount pieces cap := by
  have hsub : List.Sublist (pieces.filter (fun r => !(posInList r.pos (cap ++ [q.pos]))))
      (pieces.filter (fun r => !(posInList r.pos cap))) := by
    apply List.monotone_filter_right
    intro a ha
    simp only [Bool.not_eq_true'] at ha ⊢
    unfold posInList at ha ⊢
    rw [List.any_append] at ha
    exact (Bool.or_eq_false_iff.mp ha).1
  rcases Nat.lt_or_ge (pieces.filter (fun r => !(posInList r.pos (cap ++ [q.pos])))).length
      (pieces.filter (fun r => !(posInList r.pos cap))).length with hlt | hge
  · exact hlt
  · exfalso
    have heq := hsub.eq_of_length_le hge
    have hqin : q ∈ pieces.filter (fun r => !(posInList r.pos cap)) :=
      List.mem_filter.mpr ⟨hq, by simp [hnot]⟩
    rw [← heq] at hqin
    have := (List.mem_filter.mp hqin).2
    unfold posInList at this
    rw [List.any_append] at this
    simp at this

theorem jumpMovesAux_fuel (pieces : List Piece) (piece : Piece) (f : Nat) :
    ∀ (g : Nat) (fromPos : GridPos) (capturedSoFar : List GridPos),
      uncapturedCount pieces capturedSoFar ≤ f →
      uncapturedCount pieces capturedSoFar ≤ g →
      jumpMovesAux pieces piece (f + 1) fromPos capturedSoFar =
        jumpMovesAux pieces piece (g + 1) fromPos capturedSoFar := by
  induction f using Nat.strong_induction_on with
  | _ f ih =>
    intro g fromPos cap hf hg
    show jumpMovesAux pieces piece (f + 1) fromPos cap =
      jumpMovesAux pieces piece (g + 1) fromPos cap
    rw [jumpMovesAux, jumpMovesAux]
    apply flatMap_congr
    intro d _
    by_cases hk : piece.isKing = true
    · rw [if_pos hk, if_pos hk]
      cases hscan : rayFirstStop pieces fromPos d with
      | none => rfl
      | some k =>
        dsimp only
        by_cases hob : isOnBoard (stepPos fromPos d k) = true
        · rw [if_pos hob, if_pos hob]
          cases hget : getPieceAt pieces (stepPos fromPos d k) with
          | none => rfl
          | some q =>
            dsimp only
            by_cases hg2 : (q.color != piece.color &&
                !(posInList (stepPos fromPos d k) cap)) = true
            · rw [if_pos hg2, if_pos hg2]
              apply flatMap_congr
              intro j _
              dsimp only
              have hqmem : q ∈ pieces := (getPieceAt_eq_some hget).1
              have hqpos : q.pos = stepPos fromPos d k := (getPieceAt_eq_some hget).2
              have hnotc : posInList q.pos cap = false := by
                rw [hqpos]
                have hg2' := hg2
                rw [Bool.and_eq_true] at hg2'
                simpa using hg2'.2
              have hlt := uncapturedCount_lt pieces cap q hqmem hnotc
              rw [hqpos] at hlt
              have hpos := uncapturedCount_pos pieces cap q hqmem hnotc
              cases hfc : f with
              | zero => omega
              | succ f0 =>
                cases hgc : g with
                | zero => omega
                | succ g0 =>
                  have hrec := ih f0 (by omega) g0 (stepPos fromPos d j)
                    (cap ++ [stepPos fromPos d k]) (by omega) (by omega)
                  rw [hrec]
            · rw [if_neg hg2, if_neg hg2]
        · rw [if_neg hob, if_neg hob]
    · rw [if_neg hk, if_neg hk]
      dsimp only
      by_cases hob : (isOnBoard (stepPos fromPos d 1) && isOnBoard (stepPos fromPos d 2)) = true
      · rw [if_pos hob, if_pos hob]
        cases hget : getPieceAt pieces (stepPos fromPos d 1) with
        | none => rfl
        | some q =>
          dsimp only
          by_cases hg2 : (q.color != piece.color &&
              (getPieceAt pieces (stepPos fromPos d 2)).isNone &&
              !(posInList (stepPos fromPos d 1) cap)) = true
          · rw [if_pos hg2, if_pos hg2]
            have hqmem : q ∈ pieces := (getPieceAt_eq_some hget).1
            have hqpos : q.pos = stepPos fromPos d 1 := (getPieceAt_eq_some hget).2
            have hnotc : posInList q.pos cap = false := by
              rw [hqpos]
              have hg2' := hg2
              rw [Bool.and_eq_true, Bool.and_eq_true] at hg2'
              simpa using hg2'.2
            have hlt := uncapturedCount_lt pieces cap q hqmem hnotc
            rw [hqpos] at hlt
            have hpos := uncapturedCount_pos pieces cap q hqmem hnotc
            cases hfc : f with
            | zero => omega
            | succ f0 =>
              cases hgc : g with
              | zero => omega
              | succ g0 =>
                have hrec := ih f0 (by omega) g0 (stepPos fromPos d 2)
                  (cap ++ [stepPos fromPos d 1]) (by omega) (by omega)
                rw [hrec]
          · rw [if_neg hg2, if_neg hg2]
      · rw [if_neg hob, if_neg hob]

theorem takeWhile_range'_mem (p : Nat → Bool) :
    ∀ (n a m : Nat), m ∈ (List.range' a n).takeWhile p ↔
      (a ≤ m ∧ m < a + n ∧ ∀ i, a ≤ i → i ≤ m → p i = true) := by
  intro n
  induction n with
  | zero =>
    intro a m
    simp [List.range']
    omega
  | succ n ih =>
    intro a m
    rw [List.range'_succ, List.takeWhile_cons]
    by_cases hpa : p a = true
    · rw [if_pos hpa]
      constructor
      · intro hm
        rcases List.mem_cons.mp hm with rfl | hm2
        · refine ⟨Nat.le_refl m, by omega, ?_⟩
          intro i hi1 hi2
          have : i = m := by omega
          rw [this]
          exact hpa
        · rcases (ih (a + 1) m).mp hm2 with ⟨h1, h2, h3⟩
          refine ⟨by omega, by omega, ?_⟩
          intro i hi1 hi2
          by_cases hia : i = a
          · rw [hia]; exact hpa
          · exact h3 i (by omega) hi2
      · rintro ⟨h1, h2, h3⟩
        by_cases hma : m = a
        · rw [hma]
          exact List.mem_cons_self _ _
        · refine List.mem_cons_of_mem _ ((ih (a + 1) m).mpr ⟨by omega, by omega, ?_⟩)
          intro i hi1 hi2
          exact h3 i (by omega) hi2
    · rw [if_neg hpa]
      constructor
      · intro hm
        cases hm
      · rintro ⟨h1, h2, h3⟩
        exact absurd (h3 a (Nat.le_refl a) h1) hpa

theorem rayFirstStop_eq (pieces : List Piece) (fromPos d : GridPos) (k : Nat)
    (hk1 : 1 ≤ k) (hk9 : k ≤ 9)
    (hbefore : ∀ i, 1 ≤ i → i < k →
      isOnBoard (stepPos fromPos d i) = true ∧ getPieceAt pieces (stepPos fromPos d i) = none)
    (hhit : (!(isOnBoard (stepPos fromPos d k)) ||
      (getPieceAt pieces (stepPos fromPos d k)).isSome) = true) :
    rayFirstStop pieces fromPos d = some k := by
  unfold rayFirstStop
  have hsplit : List.range' 1 9 = List.range' 1 (k - 1) ++ List.range' k (9 - (k - 1)) := by
    have := List.range'_append 1 (k - 1) (9 - (k - 1)) 1
    rw [show 1 + 1 * (k - 1) = k by omega] at this
    rw [show 9 - (k - 1) + (k - 1) = 9 by omega] at this
    exact this.symm
  rw [hsplit, List.find?_append]
  have hnone : List.find? (fun i => !(isOnBoard (stepPos fromPos d i)) ||
      (getPieceAt pieces (stepPos fromPos d i)).isSome) (List.range' 1 (k - 1)) = none := by
    rw [List.find?_eq_none]
    intro x hx
    rcases List.mem_range'.mp hx with ⟨off, hofflt, hoffeq⟩
    have hx1 : 1 ≤ x := by omega
    have hxk : x < k := by omega
    rcases hbefore x hx1 hxk with ⟨hob, hempty⟩
    rw [hob, hempty]
    simp
  rw [hnone]
  have hrest : List.range' k (9 - (k - 1)) = k :: List.range' (k + 1) (9 - k) := by
    rw [show 9 - (k - 1) = (9 - k) + 1 by omega, List.range'_succ]
  rw [hrest, List.find?_cons, hhit]
  rfl

theorem jumpDir_step_inj (p : GridPos) (d d' : GridPos)
    (hd : d ∈ jumpDirections) (hd' : d' ∈ jumpDirections) (k k' : Nat)
    (hk : 1 ≤ k) (hk' : 1 ≤ k')
    (heq : stepPos p d' k' = stepPos p d k) : d' = d ∧ k' = k := by
  have hx := congrArg GridPos.x heq
  have hz := congrArg GridPos.z heq
  unfold jumpDirections at hd hd'
  fin_cases hd <;> fin_cases hd' <;>
    (simp only [stepPos] at hx hz
     refine ⟨?_, ?_⟩ <;> first | rfl | omega | (exfalso; omega))

theorem jumpMovesAux_captured_extends (pieces : List Piece) (piece : Piece) :
    ∀ (f : Nat) (fromPos : GridPos) (cap : List GridPos) (m : TargetMove),
      m ∈ jumpMovesAux pieces piece f fromPos cap →
      ∃ r, m.captured = cap ++ r ∧ r ≠ [] := by
  intro f
  induction f with
  | zero =>
    intro fromPos cap m hm
    cases hm
  | succ f ih =>
    intro fromPos cap m hm
    rw [jumpMovesAux] at hm
    rcases List.mem_flatMap.mp hm with ⟨d, _, hmd⟩
    by_cases hk : piece.isKing = true
    · rw [if_pos hk] at hmd
      cases hscan : rayFirstStop pieces fromPos d with
      | none =>
        rw [hscan] at hmd
        cases hmd
      | some k =>
        rw [hscan] at hmd
        try dsimp only at hmd
        by_cases hob : isOnBoard (stepPos fromPos d k) = true
        · rw [if_pos hob] at hmd
          cases hget : getPieceAt pieces (stepPos fromPos d k) with
          | none =>
            rw [hget] at hmd
            cases hmd
          | some q =>
            rw [hget] at hmd
            try dsimp only at hmd
            by_cases hg2 : (q.color != piece.color &&
                !(posInList (stepPos fromPos d k) cap)) = true
            · rw [if_pos hg2] at hmd
              rcases List.mem_flatMap.mp hmd with ⟨j, _, hmj⟩
              try dsimp only at hmj
              by_cases hemp : (jumpMovesAux pieces piece f (stepPos fromPos d j)
                  (cap ++ [stepPos fromPos d k])).isEmpty = true
              · rw [if_pos hemp] at hmj
                have hmeq := List.mem_singleton.mp hmj
                refine ⟨[stepPos fromPos d k], ?_, by simp⟩
                rw [hmeq]
              · rw [if_neg hemp] at hmj
                rcases ih _ _ m hmj with ⟨r, hr, hrne⟩
                refine ⟨[stepPos fromPos d k] ++ r, ?_, by simp⟩
                rw [hr, List.append_assoc]
            · rw [if_neg hg2] at hmd
              cases hmd
        · rw [if_neg hob] at hmd
          cases hmd
    · rw [if_neg hk] at hmd
      try dsimp only at hmd
      by_cases hob : (isOnBoard (stepPos fromPos d 1) && isOnBoard (stepPos fromPos d 2)) = true
      · rw [if_pos hob] at hmd
        cases hget : getPieceAt pieces (stepPos fromPos d 1) with
        | none =>
          rw [hget] at hmd
          cases hmd
        | some q =>
          rw [hget] at hmd
          try dsimp only at hmd
          by_cases hg2 : (q.color != piece.color &&
              (getPieceAt pieces (stepPos fromPos d 2)).isNone &&
              !(posInList (stepPos fromPos d 1) cap)) = true
          · rw [if_pos hg2] at hmd
            by_cases hemp : (jumpMovesAux pieces piece f (stepPos fromPos d 2)
                (cap ++ [stepPos fromPos d 1])).isEmpty = true
            · rw [if_pos hemp] at hmd
              have hmeq := List.mem_singleton.mp hmd
              refine ⟨[stepPos fromPos d 1], ?_, by simp⟩
              rw [hmeq]
            · rw [if_neg hemp] at hmd
              rcases ih _ _ m hmd with ⟨r, hr, hrne⟩
              refine ⟨[stepPos fromPos d 1] ++ r, ?_, by simp⟩
              rw [hr, List.append_assoc]
          · rw [if_neg hg2] at hmd
            cases hmd
      · rw [if_neg hob] at hmd
        cases hmd

/-- C3 (amended): for a King whose ray d holds, as its first piece, an enemy
at distance k (all nearer squares empty and on board), the capture generator
offers a Move landing on each empty on-board square beyond the enemy up to
(and not past) the next piece on that ray from which the piece has no further
capture; and every offered Move that captures exactly that enemy lands on
such a square — strictly between the enemy and the next piece on the ray,
never at or beyond a second piece.  (Landing squares from which a further
capture exists instead yield only the extended capture sequences.) -/
theorem C3_king_capture_enumeration (pieces : List Piece) (K : Piece) (d : GridPos)
    (q : Piece) (k : Nat)
    (hK : K.isKing = true)
    (hd : d ∈ jumpDirections)
    (hk1 : 1 ≤ k) (hk9 : k ≤ 9)
    (hbefore : ∀ i, 1 ≤ i → i < k →
      isOnBoard (stepPos K.pos d i) = true ∧ getPieceAt pieces (stepPos K.pos d i) = none)
    (hon : isOnBoard (stepPos K.pos d k) = true)
    (hq : getPieceAt pieces (stepPos K.pos d k) = some q)
    (henemy : q.color ≠ K.color) :
    (∀ j, k < j → j ≤ 9 →
      (∀ i, k + 1 ≤ i → i ≤ j →
        isOnBoard (stepPos K.pos d i) = true ∧ getPieceAt pieces (stepPos K.pos d i) = none) →
      getJumpMovesWithPositions pieces K (stepPos K.pos d j) [stepPos K.pos d k] = [] →
      (⟨stepPos K.pos d j, [stepPos K.pos d k]⟩ : TargetMove) ∈
        getJumpMovesWithPositions pieces K K.pos []) ∧
    (∀ m ∈ getJumpMovesWithPositions pieces K K.pos [],
      m.captured = [stepPos K.pos d k] →
      ∃ j, k < j ∧ j ≤ 9 ∧ m.targetPos = stepPos K.pos d j ∧
        ∀ i, k + 1 ≤ i → i ≤ j →
          isOnBoard (stepPos K.pos d i) = true ∧
          getPieceAt pieces (stepPos K.pos d i) = none) := by
  have hscan : rayFirstStop pieces K.pos d = some k :=
    rayFirstStop_eq pieces K.pos d k hk1 hk9 hbefore (by rw [hq]; simp)
  have hqmem : q ∈ pieces := (getPieceAt_eq_some hq).1
  have hqpos : q.pos = stepPos K.pos d k := (getPieceAt_eq_some hq).2
  have hlen1 : 1 ≤ pieces.length := List.length_pos_of_mem hqmem
  have hguard : (q.color != K.color &&
      !(posInList (stepPos K.pos d k) ([] : List GridPos))) = true := by
    simp only [Bool.and_eq_true, bne_iff_ne, ne_eq]
    exact ⟨henemy, by simp [posInList]⟩
  constructor
  · intro j hjk hj9 hempties hnone
    rw [getJumpMovesWithPositions] at hnone ⊢
    rw [jumpMovesAux]
    apply List.mem_flatMap.mpr
    refine ⟨d, hd, ?_⟩
    rw [if_pos hK, hscan]
    dsimp only
    rw [if_pos hon, hq]
    dsimp only
    rw [if_pos hguard]
    apply List.mem_flatMap.mpr
    refine ⟨j, ?_, ?_⟩
    · unfold kingLandings
      apply (takeWhile_range'_mem _ (9 - k) (k + 1) j).mpr
      refine ⟨by omega, by omega, ?_⟩
      intro i hi1 hi2
      rcases hempties i hi1 hi2 with ⟨hob, hemp⟩
      rw [hob, hemp]
      rfl
    · dsimp only
      have hunc : uncapturedCount pieces ([] ++ [stepPos K.pos d k]) < pieces.length := by
        have h0 : uncapturedCount pieces [] = pieces.length := by
          unfold uncapturedCount posInList
          simp

        have hlt := uncapturedCount_lt pieces [] q hqmem (by simp [posInList])
        rw [hqpos] at hlt
        omega
      have hfuel := jumpMovesAux_fuel pieces K (pieces.length - 1) pieces.length
        (stepPos K.pos d j) ([] ++ [stepPos K.pos d k]) (by omega) (by omega)
      rw [show pieces.length - 1 + 1 = pieces.length by omega] at hfuel
      have hcont : jumpMovesAux pieces K pieces.length (stepPos K.pos d j)
          ([] ++ [stepPos K.pos d k]) = [] := by
        rw [hfuel, List.nil_append]
        exact hnone
      rw [hcont]
      exact List.mem_singleton.mpr rfl
  · intro m hm hmcap
    rw [getJumpMovesWithPositions] at hm
    rw [jumpMovesAux] at hm
    rcases List.mem_flatMap.mp hm with ⟨d', hd', hmd⟩
    rw [if_pos hK] at hmd
    cases hscan' : rayFirstStop pieces K.pos d' with
    | none =>
      rw [hscan'] at hmd
      cases hmd
    | some k' =>
      rw [hscan'] at hmd
      try dsimp only at hmd
      by_cases hob' : isOnBoard (stepPos K.pos d' k') = true
      case neg =>
        rw [if_neg hob'] at hmd
        cases hmd
      rw [if_pos hob'] at hmd
      cases hget' : getPieceAt pieces (stepPos K.pos d' k') with
      | none =>
        rw [hget'] at hmd
        cases hmd
      | some q' =>
        rw [hget'] at hmd
        try dsimp only at hmd
        by_cases hg2' : (q'.color != K.color &&
            !(posInList (stepPos K.pos d' k') ([] : List GridPos))) = true
        case neg =>
          rw [if_neg hg2'] at hmd
          cases hmd
        rw [if_pos hg2'] at hmd
        rcases List.mem_flatMap.mp hmd with ⟨j', hj', hmj⟩
        try dsimp only at hmj
        have hk'1 : 1 ≤ k' := by
          have hmemk' := List.mem_of_find?_eq_some hscan'
          rcases List.mem_range'.mp hmemk' with ⟨off, hofflt, hoffeq⟩
          omega
        by_cases hemp : (jumpMovesAux pieces K pieces.length (stepPos K.pos d' j')
            ([] ++ [stepPos K.pos d' k'])).isEmpty = true
        · rw [if_pos hemp] at hmj
          have hmeq := List.mem_singleton.mp hmj
          have hcap' : m.captured = [stepPos K.pos d' k'] := by
            rw [hmeq]
            rfl
          have h12 : stepPos K.pos d' k' = stepPos K.pos d k := by
            have h0 := hcap'.symm.trans hmcap
            injection h0
          rcases jumpDir_step_inj K.pos d d' hd hd' k k' hk1 hk'1 h12 with ⟨hdd, hkk⟩
          rw [hdd, hkk] at hj'
          rw [hdd] at hmeq
          unfold kingLandings at hj'
          rcases (takeWhile_range'_mem _ (9 - k) (k + 1) j').mp hj' with ⟨hj1, hj2, hj3⟩
          refine ⟨j', by omega, by omega, ?_, ?_⟩
          · rw [hmeq]
          · intro i hi1 hi2
            have hpi := hj3 i hi1 hi2
            rw [Bool.and_eq_true] at hpi
            refine ⟨hpi.1, ?_⟩
            have hn := hpi.2
            cases hgp : getPieceAt pieces (stepPos K.pos d i) with
            | none => rfl
            | some r =>
              rw [hgp] at hn
              simp at hn
        · rw [if_neg hemp] at hmj
          rcases jumpMovesAux_captured_extends pieces K _ _ _ m hmj with ⟨r, hr, hrne⟩
          rw [hmcap] at hr
          exfalso
          have hlenr := congrArg List.length hr
          rw [List.length_append, List.length_append] at hlenr
          simp only [List.length_singleton, List.length_nil] at hlenr
          exact hrne (List.eq_nil_of_length_eq_zero (by omega))

def piecesC3x : List Piece :=
  [⟨⟨0, 0⟩, Color.black, true, false⟩, ⟨⟨1, 1⟩, Color.white, false, false⟩,
   ⟨⟨3, 1⟩, Color.white, false, false⟩]

/-- C3 (counterexample to the claim as stated): a black King at (0,0) with the
white piece at (1,1) as the only piece on the ray (1,1) — all squares beyond
it on that ray are empty and there is no second piece on the ray — and the
empty on-board landing square (2,2) beyond the jumped piece.  Yet no offered
capture Move lands on (2,2): a further capture (of the white piece at (3,1))
is available from (2,2), so the generator returns only the longer continued
sequence from that landing. -/
theorem C3_counterexample :
    getPieceAt piecesC3x ⟨1, 1⟩ = some ⟨⟨1, 1⟩, Color.white, false, false⟩ ∧
    (∀ i ∈ List.range' 2 8, getPieceAt piecesC3x (stepPos ⟨0, 0⟩ ⟨1, 1⟩ i) = none) ∧
    isOnBoard ⟨2, 2⟩ = true ∧ getPieceAt piecesC3x ⟨2, 2⟩ = none ∧
    ((getJumpMovesWithPositions piecesC3x ⟨⟨0, 0⟩, Color.black, true, false⟩ ⟨0, 0⟩ []).all
      (fun m => m.targetPos != ⟨2, 2⟩)) = true := by decide

def piecesC3w : List Piece :=
  [⟨⟨0, 0⟩, Color.black, true, false⟩, ⟨⟨1, 1⟩, Color.white, false, false⟩]

def kingC3w : Piece := ⟨⟨0, 0⟩, Color.black, true, false⟩

theorem C3_witness :
    (∀ j, 1 < j → j ≤ 9 →
      (∀ i, 1 + 1 ≤ i → i ≤ j →
        isOnBoard (stepPos kingC3w.pos ⟨1, 1⟩ i) = true ∧
        getPieceAt piecesC3w (stepPos kingC3w.pos ⟨1, 1⟩ i) = none) →
      getJumpMovesWithPositions piecesC3w kingC3w (stepPos kingC3w.pos ⟨1, 1⟩ j)
        [stepPos kingC3w.pos ⟨1, 1⟩ 1] = [] →
      (⟨stepPos kingC3w.pos ⟨1, 1⟩ j, [stepPos kingC3w.pos ⟨1, 1⟩ 1]⟩ : TargetMove) ∈
        getJumpMovesWithPositions piecesC3w kingC3w kingC3w.pos []) ∧
    (∀ m ∈ getJumpMovesWithPositions piecesC3w kingC3w kingC3w.pos [],
      m.captured = [stepPos kingC3w.pos ⟨1, 1⟩ 1] →
      ∃ j, 1 < j ∧ j ≤ 9 ∧ m.targetPos = stepPos kingC3w.pos ⟨1, 1⟩ j ∧
        ∀ i, 1 + 1 ≤ i → i ≤ j →
          isOnBoard (stepPos kingC3w.pos ⟨1, 1⟩ i) = true ∧
          getPieceAt piecesC3w (stepPos kingC3w.pos ⟨1, 1⟩ i) = none) :=
  C3_king_capture_enumeration piecesC3w kingC3w ⟨1, 1⟩
    ⟨⟨1, 1⟩, Color.white, false, false⟩ 1 rfl (by decide) (by decide) (by decide)
    (fun i hi1 hi2 => absurd (Nat.lt_of_le_of_lt hi1 hi2) (lt_irrefl 1))
    (by decide) (by decide) (by decide)

theorem botAllMoves_mem_spec (st : GameState) (jitter : Nat → ℚ) (m0 : BotMove)
    (hm : m0 ∈ botAllMoves st jitter) :
    ∃ n p c, (m0.pieceIndex, p) ∈ botPiecesToConsider st ∧
      c ∈ getValidMovesForPiece st.pieces p ∧
      m0.targetPos = c.targetPos ∧
      m0.captureCount = (match c.captured with | some l => l.length | none => 0) ∧
      m0.becomesKing = wouldBecomeKing p c.targetPos ∧
      m0.moveScore = botMoveScore m0.captureCount m0.becomesKing p.isKing (jitter n) := by
  unfold botAllMoves at hm
  dsimp only at hm
  rw [List.mem_map] at hm
  obtain ⟨en, hen, hm0⟩ := hm
  obtain ⟨n, i, p0, c0⟩ := en
  have hraw := List.snd_mem_of_mem_enum hen
  rw [List.mem_flatMap] at hraw
  obtain ⟨pr, hpr, hc⟩ := hraw
  rw [List.mem_map] at hc
  obtain ⟨c, hcmem, hceq⟩ := hc
  have h1 : pr.1 = i := congrArg Prod.fst hceq
  have h2 : pr.2 = p0 := congrArg (fun x => x.2.1) hceq
  have h3 : c = c0 := congrArg (fun x => x.2.2) hceq
  rw [← h1, ← h2, ← h3] at hm0
  rw [← hm0]
  dsimp only
  refine ⟨n, pr.2, c, ?_, hcmem, rfl, rfl, rfl, rfl⟩
  exact hpr

theorem botAllMoves_score_bounds (st : GameState) (jitter : Nat → ℚ)
    (hj : ∀ n, 0 ≤ jitter n ∧ jitter n < 2) (m0 : BotMove)
    (hm : m0 ∈ botAllMoves st jitter) :
    10 * (m0.captureCount : ℚ) ≤ m0.moveScore ∧
      m0.moveScore < 10 * (m0.captureCount : ℚ) + 8 := by
  obtain ⟨n, p, c, -, -, -, -, -, hscore⟩ := botAllMoves_mem_spec st jitter m0 hm
  obtain ⟨hj0, hj2⟩ := hj n
  rw [hscore]
  unfold botMoveScore
  split_ifs <;> constructor <;> linarith

theorem mergeSort_head_max (l : List BotMove) (m : BotMove)
    (h : (l.mergeSort (fun a b => decide (b.moveScore ≤ a.moveScore))).head? = some m) :
    m ∈ l ∧ ∀ m2 ∈ l, m2.moveScore ≤ m.moveScore := by
  have hperm := List.mergeSort_perm l (fun a b => decide (b.moveScore ≤ a.moveScore))
  have hsorted := @List.sorted_mergeSort BotMove
    (fun a b => decide (b.moveScore ≤ a.moveScore))
    (fun a b c hab hbc => by
      simp only [decide_eq_true_eq] at hab hbc ⊢
      linarith)
    (fun a b => by
      simp only [Bool.or_eq_true, decide_eq_true_eq]
      exact le_total b.moveScore a.moveScore)
    l
  cases hms : l.mergeSort (fun a b => decide (b.moveScore ≤ a.moveScore)) with
  | nil =>
    rw [hms] at h
    simp at h
  | cons x xs =>
    rw [hms] at h hsorted hperm
    have hx : x = m := by simpa using h
    rw [hx] at hsorted hperm
    constructor
    · exact hperm.mem_iff.mp (List.mem_cons_self _ _)
    · intro m2 hm2
      rcases List.mem_cons.mp (hperm.mem_iff.mpr hm2) with he | ht
      · exact le_of_eq (congrArg BotMove.moveScore he)
      · have hle := (List.pairwise_cons.mp hsorted).1 m2 ht
        simpa using hle

/-- C8: makeBotMove scores each candidate as 10 times its capture count, plus 5
if the move promotes the mover, plus 1 if the mover is already a King, plus the
jitter draw for that candidate, and selects a maximum-scoring candidate; when
every jitter draw lies in [0, 2) — as Math.random()*2 does — a candidate with
strictly more captures always outscores one with fewer. -/
theorem C8_bot_scoring (st : GameState) (jitter : Nat → ℚ)
    (hj : ∀ n, 0 ≤ jitter n ∧ jitter n < 2) (m : BotMove)
    (hbest : bestBotMove st jitter = some m) :
    m ∈ botAllMoves st jitter ∧
    (∀ m2 ∈ botAllMoves st jitter, m2.moveScore ≤ m.moveScore) ∧
    (∀ m0 ∈ botAllMoves st jitter, ∃ n p,
      (m0.pieceIndex, p) ∈ botPiecesToConsider st ∧
      m0.moveScore = 10 * (m0.captureCount : ℚ) +
        (if m0.becomesKing then 5 else 0) + (if p.isKing then 1 else 0) + jitter n) ∧
    (∀ m1 ∈ botAllMoves st jitter, ∀ m2 ∈ botAllMoves st jitter,
      m2.captureCount < m1.captureCount → m2.moveScore < m1.moveScore) := by
  unfold bestBotMove at hbest
  obtain ⟨hmem, hmax⟩ := mergeSort_head_max _ _ hbest
  refine ⟨hmem, hmax, ?_, ?_⟩
  · intro m0 hm0
    obtain ⟨n, p, c, hpr, -, -, -, -, hscore⟩ := botAllMoves_mem_spec st jitter m0 hm0
    refine ⟨n, p, hpr, ?_⟩
    rw [hscore]
    rfl
  · intro m1 h1 m2 h2 hlt
    obtain ⟨hl1, -⟩ := botAllMoves_score_bounds st jitter hj m1 h1
    obtain ⟨-, hu2⟩ := botAllMoves_score_bounds st jitter hj m2 h2
    have hcast : (m2.captureCount : ℚ) + 1 ≤ (m1.captureCount : ℚ) := by
      exact_mod_cast hlt
    linarith

def stC8 : GameState :=
  ⟨[⟨⟨0, 0⟩, Color.black, false, false⟩], -1, Color.black, Color.white, [], Color.black⟩

def jitterC8 : Nat → ℚ := fun _ => 0

def mC8 : BotMove := ⟨0, ⟨1, 1⟩, 0, false, botMoveScore 0 false false (jitterC8 0)⟩

theorem C8_witness :
    (∀ n, 0 ≤ jitterC8 n ∧ jitterC8 n < 2) ∧
    (mC8 ∈ botAllMoves stC8 jitterC8 ∧
      (∀ m2 ∈ botAllMoves stC8 jitterC8, m2.moveScore ≤ mC8.moveScore) ∧
      (∀ m0 ∈ botAllMoves stC8 jitterC8, ∃ n p,
        (m0.pieceIndex, p) ∈ botPiecesToConsider stC8 ∧
        m0.moveScore = 10 * (m0.captureCount : ℚ) +
          (if m0.becomesKing then 5 else 0) + (if p.isKing then 1 else 0) + jitterC8 n) ∧
      (∀ m1 ∈ botAllMoves stC8 jitterC8, ∀ m2 ∈ botAllMoves stC8 jitterC8,
        m2.captureCount < m1.captureCount → m2.moveScore < m1.moveScore)) :=
  ⟨fun n => ⟨le_refl 0, by norm_num [jitterC8]⟩,
   C8_bot_scoring stC8 jitterC8 (fun n => ⟨le_refl 0, by norm_num [jitterC8]⟩) mC8
     (by rw [bestBotMove, show botAllMoves stC8 jitterC8 = [mC8] from rfl,
           List.mergeSort_singleton]
         rfl)⟩

end Checkers
